import Mathlib

/-!
Verification of the PawPal scheduling engine (`src/pawpal_system.py`).

This file gives a shallow embedding of the core data model and the
scheduling algorithms of the repository, and proves the testable
properties stated in the specification against that embedding.

Modelling conventions:
* Python `int` is modelled by `Int` (arbitrary precision in both).
* Python `float` arithmetic on the small priority scores is modelled by
  exact rational arithmetic (`ℚ`); the scores involved are tiny sums of
  dyadic-like fractions and used only as sort keys.
* Python strings are modelled by `String`; `str.isdigit` and `int(...)`
  are modelled over ASCII digit characters.
* `list.sort` / `sorted` (stable sorts) are modelled by
  `List.insertionSort` (also a stable sort) over the corresponding key
  relation; none of the proved properties depends on tie order.
* Fallible parsing returns `Option`; methods that never touch `self`
  are modelled as pure functions of the scheduler value.
-/

set_option maxHeartbeats 1000000
set_option linter.unusedVariables false
set_option linter.unnecessarySeqFocus false

namespace Pawpal

/-- The `start_time` argument of `Task.__init__` may be absent, an `int`,
or a string (`Optional[object]` in the source). -/
inductive TimeValue where
  | none
  | int (n : Int)
  | str (s : String)
deriving DecidableEq

/-- Python `str.strip()`: drop leading and trailing whitespace
(modelled over the character list of the string). -/
def pyStrip (l : List Char) : List Char :=
  ((l.dropWhile Char.isWhitespace).reverse.dropWhile Char.isWhitespace).reverse

/-- Python `str.isdigit` on an ASCII string: nonempty and all characters
are decimal digits. -/
def pyIsDigit (l : List Char) : Bool := !l.isEmpty && l.all Char.isDigit

/-- Python `int(...)` applied to an all-digit string. -/
def natOfDigits (l : List Char) : Nat := l.foldl (fun acc c => acc * 10 + (c.toNat - 48)) 0

/-- Python `text.split(":", 1)`: `none` when the text holds no colon
(the `":" in text` test), otherwise the part before the first colon and
everything after it. -/
def splitOnceColon : List Char → Option (List Char × List Char)
  | [] => Option.none
  | c :: cs =>
    if c = ':' then Option.some ([], cs)
    else (splitOnceColon cs).map (fun p => (c :: p.1, p.2))

/-- `_time_to_minutes` from `src/pawpal_system.py`: `None` passes
through, ints are returned as-is, strings are stripped and parsed as
`HH:MM` (both parts `isdigit`); anything else normalizes to `None`. -/
def timeToMinutes : TimeValue → Option Int
  | TimeValue.none => Option.none
  | TimeValue.int n => Option.some n
  | TimeValue.str v =>
    match splitOnceColon (pyStrip v.toList) with
    | Option.none => Option.none
    | Option.some (hs, ms) =>
      if pyIsDigit hs && pyIsDigit ms then
        Option.some ((natOfDigits hs : Int) * 60 + (natOfDigits ms : Int))
      else Option.none

/-- The `Task` record of `src/pawpal_system.py` (fields as stored by
`Task.__init__`, with `start_time` already normalized to minutes). -/
structure Task where
  title : String
  task_type : String
  duration_minutes : Int
  priority : String
  time_window : Int × Int
  notes : String
  start_time : Option Int
  depends_on : Option String
  is_flexible : Bool
  completed : Bool
  frequency : Option String
deriving DecidableEq

/-- `Task.__init__`: stores the fields, normalizing `start_time` through
`_time_to_minutes`. -/
def mkTask (title task_type : String) (duration_minutes : Int) (priority : String)
    (time_window : Int × Int) (notes : String) (start_time : TimeValue)
    (depends_on : Option String) (is_flexible completed : Bool)
    (frequency : Option String) : Task :=
  { title := title, task_type := task_type, duration_minutes := duration_minutes,
    priority := priority, time_window := time_window, notes := notes,
    start_time := timeToMinutes start_time, depends_on := depends_on,
    is_flexible := is_flexible, completed := completed, frequency := frequency }

/-- `Task.validate`: nonempty title, duration in `[1,1440]`, priority in
the three-value enum, `time_window[0] < time_window[1]`, and when a
start time is present it lies in `[0,1440)`. -/
def Task.validate (t : Task) : Bool :=
  if t.title = "" then false
  else if !(decide (1 ≤ t.duration_minutes) && decide (t.duration_minutes ≤ 1440)) then false
  else if !(t.priority == "low" || t.priority == "medium" || t.priority == "high") then false
  else if decide (t.time_window.2 ≤ t.time_window.1) then false
  else
    match t.start_time with
    | Option.none => true
    | Option.some st => decide (0 ≤ st) && decide (st < 1440)

/-- The `Pet` record (preferences dict modelled as an association list;
only `species` is read by the engine). -/
structure Pet where
  name : String
  species : String
  needs : List String
  preferences : List (String × String)
deriving DecidableEq

/-- The `PetOwner` record; `availability` is the caregiver `[start,end)`
interval in minutes. -/
structure PetOwner where
  name : String
  availability : Int × Int
  preferences : List (String × String)
deriving DecidableEq

/-- The `PlanItem` dataclass: a task together with a scheduling decision
(`scheduled_time = -1` is the unscheduled sentinel). -/
structure PlanItem where
  task : Task
  scheduled_time : Int
  duration_minutes : Int
  reason : String
deriving DecidableEq

/-- The `Scheduler` state: task list, optional pet and owner context,
and the configured inter-task break. -/
structure Scheduler where
  tasks : List Task
  pet : Option Pet
  owner : Option PetOwner
  break_time_minutes : Int
deriving DecidableEq

/-- `Scheduler._get_dynamic_priority`: numeric base priority (default
1.0 for a priority outside the enum, per `dict.get(..., 1.0)`) plus an
urgency boost when the window end is within `(0, 120)` minutes of
`current_time`.  Float arithmetic modelled exactly over `ℚ`. -/
def getDynamicPriority (task : Task) (current_time : Int) : ℚ :=
  let priority_value : ℚ :=
    if task.priority == "high" then 3 else if task.priority == "medium" then 2 else 1
  let time_until_deadline : Int := task.time_window.2 - current_time
  if 0 < time_until_deadline ∧ time_until_deadline < 120 then
    priority_value + (1 - (time_until_deadline : ℚ) / 120)
  else priority_value

/-- `Scheduler._check_dependencies`: true when `depends_on` is falsy
(`None` or the empty string) or some already-scheduled task carries the
depended-on title. -/
def checkDependencies (task : Task) (scheduled_tasks : List Task) : Bool :=
  match task.depends_on with
  | Option.none => true
  | Option.some dep =>
    if dep = "" then true else scheduled_tasks.any (fun t => t.title == dep)

/-- `Scheduler._tasks_overlap`: overlap length of the two tasks'
`[start, start+duration)` intervals when both carry a start time and the
overlap is positive; `None` otherwise. -/
def tasksOverlap (t1 t2 : Task) : Option Int :=
  match t1.start_time, t2.start_time with
  | Option.some s1, Option.some s2 =>
    let t1_end := s1 + t1.duration_minutes
    let t2_end := s2 + t2.duration_minutes
    let overlap_duration := min t1_end t2_end - max s1 s2
    if 0 < overlap_duration then Option.some overlap_duration else Option.none
  | _, _ => Option.none

/-- Sort key used by `detect_scheduling_conflicts`
(`t.start_time or 0`; every candidate task carries a start time). -/
def startKey (t : Task) : Int := t.start_time.getD 0

/-- Candidate filter of `detect_scheduling_conflicts`: only tasks with a
concrete `start_time` take part. -/
def hasStart (t : Task) : Bool := t.start_time.isSome

/-- Ascending start-time order used to sort the conflict candidates. -/
def startRel (a b : Task) : Prop := startKey a ≤ startKey b

instance : DecidableRel startRel :=
  fun a b => inferInstanceAs (Decidable (startKey a ≤ startKey b))

instance : IsTotal Task startRel := ⟨fun a b => Int.le_total _ _⟩

instance : IsTrans Task startRel := ⟨fun _ _ _ h h2 => le_trans h h2⟩

/-- The double loop of `detect_scheduling_conflicts` over the sorted
candidate list: for each task, scan forward while the later task starts
before the current one ends (the `break`), and report each pair with a
positive overlap.  Each emitted warning string of the source is a pure
function of the reported pair (titles, times, durations, overlap) and
the scheduler's pet, so the embedding reports the pair itself. -/
def conflictScan : List Task → List (Task × Task)
  | [] => []
  | task1 :: rest =>
    ((rest.takeWhile (fun task2 => decide (startKey task2 < startKey task1 + task1.duration_minutes))).filter
        (fun task2 => (tasksOverlap task1 task2).isSome)).map (fun task2 => (task1, task2))
      ++ conflictScan rest

/-- `Scheduler.detect_scheduling_conflicts`: filter tasks carrying a
start time, sort ascending by start time, scan for overlapping pairs. -/
def detectConflictPairs (s : Scheduler) : List (Task × Task) :=
  conflictScan (List.insertionSort startRel (s.tasks.filter hasStart))

/-- `Scheduler._try_schedule_at`: the candidate interval
`[start_time, start_time+duration)` intersects no occupied slot. -/
def tryScheduleAt (task : Task) (start_time : Int) (occupied_slots : List (Int × Int)) : Bool :=
  let end_time := start_time + task.duration_minutes
  occupied_slots.all (fun sl => !(decide (start_time < sl.2) && decide (sl.1 < end_time)))

/-- The offsets produced by `range(15, min(120, latest_end - earliest_start), 15)`:
multiples of 15 below 120, further filtered by the range's stop value. -/
def searchOffsets : List Int := [15, 30, 45, 60, 75, 90, 105]

/-- `Scheduler._find_best_time`: probe `earliest_start` first, then
15-minute increments strictly below `min(120, latest_end - earliest_start)`,
accepting the first candidate that ends by `latest_end` and conflicts
with no occupied slot. -/
def findBestTime (task : Task) (earliest_start latest_end : Int)
    (occupied_slots : List (Int × Int)) : Option Int :=
  if tryScheduleAt task earliest_start occupied_slots then Option.some earliest_start
  else
    (searchOffsets.filter (fun off => decide (off < min 120 (latest_end - earliest_start)))).findSome?
      (fun off =>
        let candidate_start := earliest_start + off
        if decide (candidate_start + task.duration_minutes ≤ latest_end)
            && tryScheduleAt task candidate_start occupied_slots
        then Option.some candidate_start else Option.none)

/-- Python `f"{n:02d}"` for the minute components of a time string. -/
def twoDigit (n : Int) : String :=
  if 0 ≤ n ∧ n < 10 then "0" ++ toString n else toString n

/-- Round half to even, used to model Python `.1f` float formatting in
exact rational arithmetic (binary-float representation artifacts at
exact half-way points are not modelled; no claim depends on them). -/
def roundHalfEven (q : ℚ) : Int :=
  let n := q.floor
  let r := q - (n : ℚ)
  if r < 1 / 2 then n else if 1 / 2 < r then n + 1 else if n % 2 = 0 then n else n + 1

/-- Decimal rendering of a nonnegative number of tenths as `d.t`. -/
def tenthsStr (t : Int) : String :=
  toString (t.ediv 10) ++ "." ++ toString (t.emod 10)

/-- Python `f"{duration_minutes / 60:.1f}"` (hours with one decimal). -/
def hoursStr (duration_minutes : Int) : String :=
  let t := roundHalfEven ((duration_minutes : ℚ) * 10 / 60)
  if 0 ≤ t then tenthsStr t else "-" ++ tenthsStr (-t)

/-- Reason string of a PlanItem blocked by an unmet dependency (in this
branch `depends_on` is always a nonempty string). -/
def depReason (task : Task) : String :=
  "Waiting for dependency: " ++ task.depends_on.getD ""

/-- The unscheduled PlanItem emitted when the effective window cannot
hold the task. -/
def noWindowItem (task : Task) : PlanItem :=
  { task := task, scheduled_time := -1, duration_minutes := task.duration_minutes,
    reason := "Task time window doesn\x27t overlap with owner availability" }

/-- The unscheduled PlanItem emitted when the slot search fails. -/
def noSlotItem (task : Task) : PlanItem :=
  { task := task, scheduled_time := -1, duration_minutes := task.duration_minutes,
    reason := "No available " ++ hoursStr task.duration_minutes ++ "h slot in preferred time window" }

/-- Reason string of a successfully placed rigid task (time rendered
with Python floor division/modulo, optional dog-walk annotation). -/
def scheduledReason (pet : Pet) (task : Task) (earliest_start best_start : Int) : String :=
  let time_desc := twoDigit (best_start.fdiv 60) ++ ":" ++ twoDigit (best_start.fmod 60)
  let base := "Scheduled at " ++ time_desc ++ " (" ++ task.priority ++ " priority, " ++
    (if earliest_start < best_start then "adjusted to avoid conflicts)" else "optimal time)")
  if pet.species == "dog" && task.task_type == "walk" && decide (best_start < 600)
  then base ++ " - dogs benefit from morning exercise" else base

/-- The mutable state of the rigid-task placement loop of
`generate_plan`: plan built so far, successfully scheduled tasks,
occupied intervals, and the running time cursor. -/
structure LoopSt where
  plan : List PlanItem
  scheduled_tasks : List Task
  occupied_slots : List (Int × Int)
  current_time : Int
deriving DecidableEq

/-- One iteration of the rigid-task loop of `generate_plan`: dependency
gate, effective-window check, slot search, and emission of exactly one
PlanItem for the task. -/
def scheduleStep (pet : Pet) (owner : PetOwner) (break_time_minutes : Int)
    (st : LoopSt) (task : Task) : LoopSt :=
  if !(checkDependencies task st.scheduled_tasks) then
    { st with plan := st.plan ++
        [PlanItem.mk task (-1) task.duration_minutes (depReason task)] }
  else
    let earliest_start := max (max st.current_time task.time_window.1) owner.availability.1
    let latest_end := min owner.availability.2 task.time_window.2
    if decide (latest_end < earliest_start + task.duration_minutes) then
      { st with plan := st.plan ++ [noWindowItem task] }
    else
      match findBestTime task earliest_start latest_end st.occupied_slots with
      | Option.some best_start =>
        let end_time := best_start + task.duration_minutes
        LoopSt.mk
          (st.plan ++ [PlanItem.mk task best_start task.duration_minutes
            (scheduledReason pet task earliest_start best_start)])
          (st.scheduled_tasks ++ [task])
          (st.occupied_slots ++ [(best_start, end_time + break_time_minutes)])
          (end_time + break_time_minutes)
      | Option.none =>
        { st with plan := st.plan ++ [noSlotItem task] }

/-- Lexicographic order on the `(priority score, duration)` sort key. -/
def keyLe (p q : ℚ × Int) : Prop := p.1 < q.1 ∨ (p.1 = q.1 ∧ p.2 ≤ q.2)

instance : DecidableRel keyLe :=
  fun p q => inferInstanceAs (Decidable (p.1 < q.1 ∨ (p.1 = q.1 ∧ p.2 ≤ q.2)))

/-- The descending-key order of
`sorted(rigid, key=(priority, duration), reverse=True)`. -/
def rankRel (current_time : Int) (a b : Task) : Prop :=
  keyLe (getDynamicPriority b current_time, b.duration_minutes)
    (getDynamicPriority a current_time, a.duration_minutes)

instance (current_time : Int) : DecidableRel (rankRel current_time) :=
  fun a b => inferInstanceAs (Decidable (keyLe _ _))

/-- Ascending `scheduled_time` order on plan items. -/
def timeRel (a b : PlanItem) : Prop := a.scheduled_time ≤ b.scheduled_time

instance : DecidableRel timeRel :=
  fun a b => inferInstanceAs (Decidable (a.scheduled_time ≤ b.scheduled_time))

instance : IsTotal PlanItem timeRel := ⟨fun a b => Int.le_total _ _⟩

instance : IsTrans PlanItem timeRel := ⟨fun _ _ _ h h2 => le_trans h h2⟩

/-- One step of the gap-identification loop of `Scheduler._fill_gaps`:
record a gap of 15+ minutes before the item, then advance the cursor
past the item and its trailing break. -/
def gapStep (break_time_minutes : Int) (acc : List (Int × Int) × Int)
    (item : PlanItem) : List (Int × Int) × Int :=
  let gaps :=
    if decide (acc.2 < item.scheduled_time) && decide (15 ≤ item.scheduled_time - acc.2)
    then acc.1 ++ [(acc.2, item.scheduled_time)] else acc.1
  (gaps, max acc.2 (item.scheduled_time + item.duration_minutes + break_time_minutes))

/-- The inner placement test of `_fill_gaps`: the task's duration fits
the gap and the gap start and implied end lie inside the task's own
time window. -/
def fitsGap (gap : Int × Int) (task : Task) : Bool :=
  decide (task.duration_minutes ≤ gap.2 - gap.1) &&
    decide (task.time_window.1 ≤ gap.1) &&
    decide (gap.1 + task.duration_minutes ≤ task.time_window.2)

/-- Find the first list element satisfying `p` and remove exactly that
occurrence (the `for ... if ...: remove; break` idiom of `_fill_gaps`). -/
def extractFirst (p : Task → Bool) : List Task → Option (Task × List Task)
  | [] => Option.none
  | t :: ts =>
    if p t then Option.some (t, ts)
    else (extractFirst p ts).map (fun r => (r.1, t :: r.2))

/-- The gap-assignment loop of `_fill_gaps`: for each gap in order,
place the first still-available flexible task that fits, at the gap
start; return the new items and the remaining flexible tasks. -/
def assignGaps : List (Int × Int) → List Task → List PlanItem × List Task
  | [], flexible_tasks => ([], flexible_tasks)
  | gap :: gaps, flexible_tasks =>
    match extractFirst (fitsGap gap) flexible_tasks with
    | Option.some (task, rest) =>
      let r := assignGaps gaps rest
      (PlanItem.mk task gap.1 task.duration_minutes
          ("Gap-filled during " ++ toString (gap.2 - gap.1) ++ "min window") :: r.1,
       r.2)
    | Option.none => assignGaps gaps flexible_tasks

/-- The gaps computed by `_fill_gaps` from the scheduled items (sorted
by time): gaps between the availability start, the items (with trailing
break) and the availability end, keeping only gaps of 15+ minutes. -/
def computeGaps (break_time_minutes : Int) (scheduled_items : List PlanItem)
    (owner_availability : Int × Int) : List (Int × Int) :=
  let acc := scheduled_items.foldl (gapStep break_time_minutes)
    (([] : List (Int × Int)), owner_availability.1)
  if decide (acc.2 < owner_availability.2) && decide (15 ≤ owner_availability.2 - acc.2)
  then acc.1 ++ [(acc.2, owner_availability.2)] else acc.1

/-- `Scheduler._fill_gaps`: identify idle gaps between the scheduled
items and first-fit flexible tasks into them. -/
def fillGaps (break_time_minutes : Int) (plan : List PlanItem)
    (flexible_tasks : List Task) (owner_availability : Int × Int) : List PlanItem :=
  if flexible_tasks = [] then plan
  else
    let scheduled_items := List.insertionSort timeRel
      (plan.filter (fun item => decide (0 ≤ item.scheduled_time)))
    let gaps := computeGaps break_time_minutes scheduled_items owner_availability
    plan ++ (assignGaps gaps flexible_tasks).1

/-- The body of `Scheduler.generate_plan` once the pet and owner
context checks have passed: empty plan without tasks; otherwise rank
the rigid tasks, place them greedily, fill gaps with the flexible
tasks, and return scheduled items (sorted by time) followed by
unscheduled ones. -/
def generatePlanAux (s : Scheduler) (pet : Pet) (owner : PetOwner) : List PlanItem :=
  if s.tasks = [] then []
  else
    let rigid_tasks := s.tasks.filter (fun t => !t.is_flexible)
    let flexible_tasks := s.tasks.filter (fun t => t.is_flexible)
    let current_time := owner.availability.1
    let sorted_tasks := List.insertionSort (rankRel current_time) rigid_tasks
    let st := sorted_tasks.foldl (scheduleStep pet owner s.break_time_minutes)
      { plan := [], scheduled_tasks := [], occupied_slots := [], current_time := current_time }
    let plan := fillGaps s.break_time_minutes st.plan flexible_tasks owner.availability
    let scheduled := plan.filter (fun p => decide (0 ≤ p.scheduled_time))
    let unscheduled := plan.filter (fun p => decide (p.scheduled_time < 0))
    List.insertionSort timeRel scheduled ++ unscheduled

/-- `Scheduler.generate_plan`: empty plan when the pet or the owner
context is unset (`not self.pet or not self.owner`), else the main
body.  The source method never writes to `self`, so it is embedded as
a pure function of the scheduler value. -/
def generatePlan (s : Scheduler) : List PlanItem :=
  match s.pet, s.owner with
  | Option.some pet, Option.some owner => generatePlanAux s pet owner
  | _, _ => []

/-! ## C8: missing context or missing tasks yield the empty plan -/

/-- Helper: `generate_plan` is empty without pet, owner, or tasks. -/
theorem generatePlan_empty (s : Scheduler)
    (h : s.pet = Option.none ∨ s.owner = Option.none ∨ s.tasks = []) :
    generatePlan s = [] := by
  obtain ⟨tasks, pet, owner, br⟩ := s
  cases pet <;> cases owner <;> rcases h with h | h | h <;>
    simp_all [generatePlan, generatePlanAux]

/-- C8: when the pet context or the owner context is unset, or when the
scheduler holds no tasks, `generate_plan` returns the empty plan.  The
source method performs no writes to `self` on any path, so the
embedding is a pure function of the scheduler and the scheduler state
is unchanged by construction. -/
theorem C8_missing_context_empty_plan (s : Scheduler)
    (h : s.pet = Option.none ∨ s.owner = Option.none ∨ s.tasks = []) :
    generatePlan s = [] := generatePlan_empty s h

/-- Witness for C8 at a concrete scheduler with no pet and no owner. -/
theorem C8_missing_context_empty_plan_witness :
    ((Scheduler.mk [] Option.none Option.none 5).pet = Option.none ∨
      (Scheduler.mk [] Option.none Option.none 5).owner = Option.none ∨
      (Scheduler.mk [] Option.none Option.none 5).tasks = []) ∧
    generatePlan (Scheduler.mk [] Option.none Option.none 5) = [] :=
  ⟨Or.inl rfl, C8_missing_context_empty_plan _ (Or.inl rfl)⟩

/-! ## C6: the dynamic priority score -/

/-- The base score table exactly as the specification states it
(high=3.0, medium=2.0, low=1.0); outside the enum the table says
nothing, so the value is arbitrary here. -/
def specBaseScore (p : String) : ℚ :=
  if p = "high" then 3 else if p = "medium" then 2 else if p = "low" then 1 else 0

/-- C6: for a task whose priority lies in the three-value enum, the
dynamic priority equals the base score plus the urgency boost
`1 - d/120` exactly when `d = timeWindow.end - now` lies in `[1, 119]`;
a closed window (`d ≤ 0`) or a deadline `≥ 120` minutes away gets no
boost. -/
theorem C6_priority_score (t : Task) (now : Int)
    (hp : t.priority = "low" ∨ t.priority = "medium" ∨ t.priority = "high") :
    getDynamicPriority t now =
      specBaseScore t.priority +
        (if 1 ≤ t.time_window.2 - now ∧ t.time_window.2 - now ≤ 119
         then 1 - ((t.time_window.2 - now : Int) : ℚ) / 120 else 0) := by
  have hiff : (0 < t.time_window.2 - now ∧ t.time_window.2 - now < 120) ↔
      (1 ≤ t.time_window.2 - now ∧ t.time_window.2 - now ≤ 119) := by omega
  unfold getDynamicPriority specBaseScore
  rcases hp with hp | hp | hp <;> rw [hp] <;> simp only [hiff] <;> split_ifs <;> simp_all

/-- Witness for C6 at a concrete high-priority task 50 minutes from its
deadline: score `3 + (1 - 50/120)`. -/
theorem C6_priority_score_witness :
    ((mkTask "walk" "walk" 30 "high" (0, 500) "" TimeValue.none Option.none false false
        Option.none).priority = "low" ∨
      (mkTask "walk" "walk" 30 "high" (0, 500) "" TimeValue.none Option.none false false
        Option.none).priority = "medium" ∨
      (mkTask "walk" "walk" 30 "high" (0, 500) "" TimeValue.none Option.none false false
        Option.none).priority = "high") ∧
    getDynamicPriority (mkTask "walk" "walk" 30 "high" (0, 500) "" TimeValue.none Option.none
        false false Option.none) 450 =
      specBaseScore "high" +
        (if (1 ≤ (500 : Int) - 450 ∧ (500 : Int) - 450 ≤ 119)
         then 1 - (((500 : Int) - 450 : Int) : ℚ) / 120 else 0) :=
  ⟨Or.inr (Or.inr rfl),
    C6_priority_score (mkTask "walk" "walk" 30 "high" (0, 500) "" TimeValue.none Option.none
      false false Option.none) 450 (Or.inr (Or.inr rfl))⟩

/-! ## C10: non-`HH:MM` start-time strings normalize to `None` -/

/-- The claim's notion of a character string "of the form digits:digits":
the part before the first colon and everything after it are both
nonempty all-digit strings (so a second colon also breaks the form). -/
def hhmmShape (l : List Char) : Bool :=
  match splitOnceColon l with
  | Option.some ab => pyIsDigit ab.1 && pyIsDigit ab.2
  | Option.none => false

/-- Every task of a pair reported by the conflict scan is drawn from the
scanned list. -/
theorem conflictScan_mem : ∀ (l : List Task) (p : Task × Task),
    p ∈ conflictScan l → p.1 ∈ l ∧ p.2 ∈ l := by
  intro l
  induction l with
  | nil => intro p hp; simp [conflictScan] at hp
  | cons a as ih =>
    intro p hp
    rw [conflictScan] at hp
    rcases List.mem_append.mp hp with h | h
    · obtain ⟨t2, ht2, rfl⟩ := List.mem_map.mp h
      have h2 : t2 ∈ as :=
        (List.takeWhile_sublist _).mem (List.mem_of_mem_filter ht2)
      exact ⟨List.mem_cons_self a as, List.mem_cons_of_mem a h2⟩
    · exact ⟨List.mem_cons_of_mem a (ih p h).1, List.mem_cons_of_mem a (ih p h).2⟩

/-- A string-valued `start_time` that does not parse normalizes to
`None`. -/
theorem timeToMinutes_of_not_hhmm (sv : String)
    (h : hhmmShape (pyStrip sv.toList) = false) :
    timeToMinutes (TimeValue.str sv) = Option.none := by
  rw [hhmmShape] at h
  rw [timeToMinutes]
  cases hsp : splitOnceColon (pyStrip sv.toList) with
  | none => rfl
  | some ab =>
    obtain ⟨a1, a2⟩ := ab
    rw [hsp] at h
    have h2 : (pyIsDigit a1 && pyIsDigit a2) = false := h
    simp only [h2, Bool.false_eq_true, if_false, ite_false]

/-- C10: a task whose `start_time` string is not of the digits:digits
form (after stripping) gets `start_time = None`, and is the very same
record the constructor builds when no start time is given at all — so
`validate` is unaffected (it can still return true) and conflict
detection never reports the task. -/
theorem C10_unparsable_start_time (sv : String)
    (h : hhmmShape (pyStrip sv.toList) = false)
    (title task_type : String) (dur : Int) (prio : String) (tw : Int × Int) (notes : String)
    (dep : Option String) (flex comp : Bool) (freq : Option String) :
    (mkTask title task_type dur prio tw notes (TimeValue.str sv) dep flex comp freq).start_time
        = Option.none ∧
    mkTask title task_type dur prio tw notes (TimeValue.str sv) dep flex comp freq =
      mkTask title task_type dur prio tw notes TimeValue.none dep flex comp freq ∧
    ∀ sc : Scheduler, ∀ p ∈ detectConflictPairs sc,
      p.1 ≠ mkTask title task_type dur prio tw notes (TimeValue.str sv) dep flex comp freq ∧
      p.2 ≠ mkTask title task_type dur prio tw notes (TimeValue.str sv) dep flex comp freq := by
  have hst := timeToMinutes_of_not_hhmm sv h
  refine ⟨by simp [mkTask, hst],
    by unfold mkTask; rw [hst, show timeToMinutes TimeValue.none = Option.none from rfl], ?_⟩
  intro sc p hp
  have hmem := conflictScan_mem _ p hp
  have h1 : hasStart p.1 = true :=
    List.of_mem_filter ((List.mem_insertionSort startRel).mp hmem.1)
  have h2 : hasStart p.2 = true :=
    List.of_mem_filter ((List.mem_insertionSort startRel).mp hmem.2)
  constructor
  · intro he; rw [he] at h1; simp [hasStart, mkTask, hst] at h1
  · intro he; rw [he] at h2; simp [hasStart, mkTask, hst] at h2

/-- Witness for C10 at the string `"8am"`. -/
theorem C10_unparsable_start_time_witness :
    hhmmShape (pyStrip ("8am" : String).toList) = false ∧
    (mkTask "Feed" "feeding" 30 "medium" (480, 600) "" (TimeValue.str "8am")
        Option.none false false Option.none).start_time = Option.none ∧
    (mkTask "Feed" "feeding" 30 "medium" (480, 600) "" (TimeValue.str "8am")
        Option.none false false Option.none).validate = true := by
  refine ⟨by decide, (C10_unparsable_start_time "8am" (by decide) "Feed" "feeding" 30
    "medium" (480, 600) "" Option.none false false Option.none).1, by decide⟩

/-! ## C5: the slot search (corrected) -/

/-- The claim's reading of `findSlot`: after the free probe of
`earliestStart`, candidates at 15-minute increments up to 120 minutes of
search depth ("at most 8 additional probes"), each required to end by
`latestEnd` and to intersect no occupied interval. -/
def findSlotClaim (task : Task) (earliest_start latest_end : Int)
    (occupied_slots : List (Int × Int)) : Option Int :=
  if tryScheduleAt task earliest_start occupied_slots then Option.some earliest_start
  else
    ([15, 30, 45, 60, 75, 90, 105, 120] : List Int).findSome? (fun off =>
      let candidate_start := earliest_start + off
      if decide (candidate_start + task.duration_minutes ≤ latest_end)
          && tryScheduleAt task candidate_start occupied_slots
      then Option.some candidate_start else Option.none)

/-- The amended reading: the range bound `min(120, latestEnd - earliestStart)`
is exclusive, so the additional probes are at offsets 15..105 only — at
most 7 of them. -/
def findSlotAmended (task : Task) (earliest_start latest_end : Int)
    (occupied_slots : List (Int × Int)) : Option Int :=
  if tryScheduleAt task earliest_start occupied_slots then Option.some earliest_start
  else
    ([15, 30, 45, 60, 75, 90, 105] : List Int).findSome? (fun off =>
      let candidate_start := earliest_start + off
      if decide (candidate_start + task.duration_minutes ≤ latest_end)
          && tryScheduleAt task candidate_start occupied_slots
      then Option.some candidate_start else Option.none)

/-- A 10-minute probe task used to separate the two readings. -/
def probeTask : Task :=
  mkTask "probe" "x" 10 "low" (0, 1440) "" TimeValue.none Option.none false false Option.none

/-- Counterexample to C5 as stated: with `earliestStart = 0`,
`latestEnd = 200` and the single occupied interval `[0,120)`, the code
returns no slot (its probes stop at offset 105), while the claimed
8-probe search would accept minute 120. -/
theorem C5_counterexample :
    findBestTime probeTask 0 200 [(0, 120)] = Option.none ∧
    findSlotClaim probeTask 0 200 [(0, 120)] = Option.some 120 := by
  constructor <;> rfl

/-- `findSome?` ignores a filter that keeps every list element on which
the searched function can fire. -/
theorem findSome?_filter_of_isSome {α β : Type} (f : α → Option β) (q : α → Bool) :
    ∀ l : List α, (∀ a ∈ l, (f a).isSome → q a = true) →
      (l.filter q).findSome? f = l.findSome? f := by
  intro l
  induction l with
  | nil => intro _; rfl
  | cons a as ih =>
    intro h
    by_cases hq : q a = true
    · rw [List.filter_cons_of_pos hq, List.findSome?_cons, List.findSome?_cons]
      cases hfa : f a with
      | none => exact ih fun x hx => h x (List.mem_cons_of_mem a hx)
      | some b => rfl
    · have hfa : f a = Option.none := by
        cases hfa : f a with
        | none => rfl
        | some b =>
          exact absurd (h a (List.mem_cons_self a as) (by simp [hfa])) hq
      rw [List.filter_cons_of_neg (by simpa using hq), List.findSome?_cons, hfa]
      exact ih fun x hx => h x (List.mem_cons_of_mem a hx)

/-- C5 (amended): for any task of positive duration, `_find_best_time`
returns `earliestStart` when its interval is free, and otherwise the
first fitting candidate among the offsets 15, 30, …, 105 (at most seven
additional probes, each ending by `latestEnd`); `None` when the search
is exhausted. -/
theorem C5_find_best_time_amended (task : Task) (earliest_start latest_end : Int)
    (occupied_slots : List (Int × Int)) (hd : 1 ≤ task.duration_minutes) :
    findBestTime task earliest_start latest_end occupied_slots =
      findSlotAmended task earliest_start latest_end occupied_slots := by
  rw [findBestTime, findSlotAmended]
  by_cases h0 : tryScheduleAt task earliest_start occupied_slots = true
  · rw [if_pos h0, if_pos h0]
  · rw [if_neg h0, if_neg h0]
    rw [searchOffsets]
    apply findSome?_filter_of_isSome
    intro off hoff hsome
    have hoff120 : off < 120 := by
      simp only [List.mem_cons, List.not_mem_nil, or_false] at hoff
      rcases hoff with rfl | rfl | rfl | rfl | rfl | rfl | rfl <;> norm_num
    by_cases hc : (decide (earliest_start + off + task.duration_minutes ≤ latest_end)
        && tryScheduleAt task (earliest_start + off) occupied_slots) = true
    · have hle : earliest_start + off + task.duration_minutes ≤ latest_end := by
        have := (Bool.and_eq_true _ _).mp hc
        exact of_decide_eq_true this.1
      simp only [decide_eq_true_eq, lt_min_iff]
      omega
    · rw [if_neg hc] at hsome
      simp at hsome

/-- Witness for C5 (amended) at a concrete positive-duration task. -/
theorem C5_find_best_time_amended_witness :
    1 ≤ probeTask.duration_minutes ∧
    findBestTime probeTask 30 300 [(30, 60)] =
      findSlotAmended probeTask 30 300 [(30, 60)] :=
  ⟨by decide, C5_find_best_time_amended probeTask 30 300 [(30, 60)] (by decide)⟩

/-! ## C1 and C2: counterexamples -/

/-- A concrete pet used by the counterexample schedulers. -/
def dogPet : Pet := Pet.mk "Rex" "dog" [] []

/-- A valid flexible 30-minute task with a free time window. -/
def flexF : Task :=
  mkTask "F" "play" 30 "low" (0, 1440) "" TimeValue.none Option.none true false Option.none

/-- Scheduler with pet and owner set, one valid flexible task, and a
10-minute availability window (too short for any 15-minute gap). -/
def c1Sched : Scheduler :=
  Scheduler.mk [flexF] (Option.some dogPet) (Option.some (PetOwner.mk "Sam" (0, 10) [])) 5

/-- Counterexample to C1 as stated: the scheduler holds one valid task,
pet and owner are set, yet `generate_plan` returns no PlanItem at all —
a flexible task that fits no gap is simply absent from the plan, so the
result is not count-preserving. -/
theorem C1_counterexample :
    (∀ t ∈ c1Sched.tasks, t.validate = true) ∧
    c1Sched.tasks ≠ [] ∧
    c1Sched.pet.isSome = true ∧
    c1Sched.owner.isSome = true ∧
    (generatePlan c1Sched).length ≠ c1Sched.tasks.length := by
  refine ⟨by decide, by decide, by decide, by decide, by decide⟩

/-- A valid rigid task titled `"X"` confined to the window `[100,200)`. -/
def rigidX : Task :=
  mkTask "X" "care" 30 "high" (100, 200) "" TimeValue.none Option.none false false Option.none

/-- A valid flexible task depending (by title) on `"X"`. -/
def flexT : Task :=
  mkTask "T" "care" 30 "low" (0, 1440) "" TimeValue.none (Option.some "X") true false
    Option.none

/-- Scheduler holding the rigid task `X` and the flexible dependent `T`. -/
def c2Sched : Scheduler :=
  Scheduler.mk [rigidX, flexT] (Option.some dogPet)
    (Option.some (PetOwner.mk "Sam" (0, 1440) [])) 5

/-- Counterexample to C2 as stated: the flexible task `T` with
`dependsOn = "X"` is gap-filled at minute 0 while `X` itself is
scheduled at minute 100 — the gap filler never consults the dependency
gate, so a scheduled dependent may precede its dependency. -/
theorem C2_counterexample :
    (∀ t ∈ c2Sched.tasks, t.validate = true) ∧
    (generatePlan c2Sched).map (fun p => (p.task.title, p.task.depends_on, p.scheduled_time)) =
      [("T", Option.some "X", (0 : Int)), ("X", Option.none, 100)] ∧
    ¬(∀ p ∈ generatePlan c2Sched, ∀ q ∈ generatePlan c2Sched,
        0 ≤ p.scheduled_time → 0 ≤ q.scheduled_time →
        p.task.depends_on = Option.some q.task.title →
        q.scheduled_time ≤ p.scheduled_time) := by
  refine ⟨by decide, by decide, by decide⟩

/-! ## Infrastructure: facts about the rigid placement loop -/

/-- The scheduled intervals of two plan items do not intersect. -/
def ivDisj (a b : PlanItem) : Prop :=
  a.scheduled_time + a.duration_minutes ≤ b.scheduled_time ∨
    b.scheduled_time + b.duration_minutes ≤ a.scheduled_time

theorem ivDisj_symm {a b : PlanItem} (h : ivDisj a b) : ivDisj b a := h.symm

/-- A validated task has positive duration. -/
theorem validate_dur {t : Task} (h : t.validate = true) : 1 ≤ t.duration_minutes := by
  unfold Task.validate at h
  split_ifs at h with h1 h2 h3 h4 <;> simp_all

/-- A free probe is disjoint from every occupied slot. -/
theorem tryScheduleAt_spec {task : Task} {start_time : Int} {occupied_slots : List (Int × Int)}
    (h : tryScheduleAt task start_time occupied_slots = true) :
    ∀ sl ∈ occupied_slots, sl.2 ≤ start_time ∨ start_time + task.duration_minutes ≤ sl.1 := by
  intro sl hsl
  rw [tryScheduleAt, List.all_eq_true] at h
  have h2 := h sl hsl
  simp only [Bool.not_eq_true', Bool.and_eq_false_iff, decide_eq_false_iff_not, not_lt] at h2
  rcases h2 with h2 | h2
  · exact Or.inl h2
  · exact Or.inr h2

/-- A successful slot search returns a time at or after `earliest_start`
whose interval ends by `latest_end` (given the caller's guard) and is
free of the occupied slots. -/
theorem findBestTime_some {task : Task} {earliest_start latest_end : Int}
    {occupied_slots : List (Int × Int)} {b : Int}
    (hguard : earliest_start + task.duration_minutes ≤ latest_end)
    (h : findBestTime task earliest_start latest_end occupied_slots = Option.some b) :
    earliest_start ≤ b ∧ b + task.duration_minutes ≤ latest_end ∧
      tryScheduleAt task b occupied_slots = true := by
  rw [findBestTime] at h
  by_cases h0 : tryScheduleAt task earliest_start occupied_slots = true
  · rw [if_pos h0] at h
    have hb : earliest_start = b := by simpa using h
    subst hb
    exact ⟨le_refl _, hguard, h0⟩
  · rw [if_neg h0] at h
    obtain ⟨off, hmem, hf⟩ := List.exists_of_findSome?_eq_some h
    have hmem2 : off ∈ searchOffsets := List.mem_of_mem_filter hmem
    have h15 : 15 ≤ off := by
      rw [searchOffsets] at hmem2
      simp only [List.mem_cons, List.not_mem_nil, or_false] at hmem2
      rcases hmem2 with rfl | rfl | rfl | rfl | rfl | rfl | rfl <;> norm_num
    dsimp only at hf
    split at hf
    · next hcond =>
      have hb : earliest_start + off = b := by simpa using hf
      have hc := (Bool.and_eq_true _ _).mp hcond
      have hle : earliest_start + off + task.duration_minutes ≤ latest_end :=
        of_decide_eq_true hc.1
      refine ⟨by omega, by omega, ?_⟩
      rw [← hb]
      exact hc.2
    · exact absurd hf (by simp)

/-- A passed dependency gate with a nonempty dependency exhibits an
already-scheduled task bearing the depended-on title. -/
theorem checkDependencies_target {task : Task} {scheduled_tasks : List Task} {d : String}
    (hdep : task.depends_on = Option.some d) (hd : d ≠ "")
    (h : checkDependencies task scheduled_tasks = true) :
    ∃ t ∈ scheduled_tasks, t.title = d := by
  rw [checkDependencies, hdep] at h
  have h2 : (if d = "" then true else scheduled_tasks.any fun t => t.title == d) = true := h
  rw [if_neg hd] at h2
  obtain ⟨t, ht, hbeq⟩ := List.any_eq_true.mp h2
  exact ⟨t, ht, by simpa using hbeq⟩

/-- Invariant of the rigid placement loop, relative to the caregiver
availability interval and the break length: every emitted item copies
its task's (positive) duration and is rigid; every recorded scheduled
task has a scheduled plan item ending (with break) by the cursor; every
scheduled item lies inside availability and its own window, sits inside
a recorded occupied slot, has its (nonempty) dependency scheduled no
later than itself, and scheduled items are pairwise disjoint. -/
structure StInv (avail : Int × Int) (br : Int) (st : LoopSt) : Prop where
  item_dur : ∀ p ∈ st.plan, p.duration_minutes = p.task.duration_minutes ∧
    1 ≤ p.duration_minutes ∧ p.task.is_flexible = false
  sched_sub : ∀ t ∈ st.scheduled_tasks, ∃ p ∈ st.plan, p.task = t ∧ 0 ≤ p.scheduled_time ∧
    p.scheduled_time + p.duration_minutes + br ≤ st.current_time
  contain : ∀ p ∈ st.plan, 0 ≤ p.scheduled_time →
    avail.1 ≤ p.scheduled_time ∧ p.task.time_window.1 ≤ p.scheduled_time ∧
    p.scheduled_time + p.duration_minutes ≤ avail.2 ∧
    p.scheduled_time + p.duration_minutes ≤ p.task.time_window.2
  slot : ∀ p ∈ st.plan, 0 ≤ p.scheduled_time → ∃ sl ∈ st.occupied_slots,
    sl.1 ≤ p.scheduled_time ∧ p.scheduled_time + p.duration_minutes ≤ sl.2
  dep : ∀ p ∈ st.plan, 0 ≤ p.scheduled_time → ∀ d, p.task.depends_on = Option.some d →
    d ≠ "" → ∃ q ∈ st.plan, 0 ≤ q.scheduled_time ∧ q.task.is_flexible = false ∧
      q.task.title = d ∧ q.scheduled_time + q.duration_minutes ≤ p.scheduled_time
  pw : st.plan.Pairwise (fun a b => 0 ≤ a.scheduled_time → 0 ≤ b.scheduled_time → ivDisj a b)

/-- Appending an unscheduled (sentinel-time) item preserves the loop
invariant. -/
theorem StInv.append_unscheduled {avail : Int × Int} {br : Int} {st : LoopSt}
    (hinv : StInv avail br st) (task : Task) (hdur : 1 ≤ task.duration_minutes)
    (hrig : task.is_flexible = false) (reason : String) :
    StInv avail br { st with plan :=
      st.plan ++ [PlanItem.mk task (-1) task.duration_minutes reason] } := by
  constructor
  · intro p hp
    rcases List.mem_append.mp hp with hp | hp
    · exact hinv.item_dur p hp
    · rw [List.mem_singleton.mp hp]
      exact ⟨rfl, hdur, hrig⟩
  · intro t ht
    obtain ⟨q, hq, hfacts⟩ := hinv.sched_sub t ht
    exact ⟨q, List.mem_append_left _ hq, hfacts⟩
  · intro p hp h0
    rcases List.mem_append.mp hp with hp | hp
    · exact hinv.contain p hp h0
    · rw [List.mem_singleton.mp hp] at h0
      exact absurd h0 (by norm_num)
  · intro p hp h0
    rcases List.mem_append.mp hp with hp | hp
    · obtain ⟨sl, hsl, hfacts⟩ := hinv.slot p hp h0
      exact ⟨sl, hsl, hfacts⟩
    · rw [List.mem_singleton.mp hp] at h0
      exact absurd h0 (by norm_num)
  · intro p hp h0 d hpd hd
    rcases List.mem_append.mp hp with hp | hp
    · obtain ⟨q, hq, hfacts⟩ := hinv.dep p hp h0 d hpd hd
      exact ⟨q, List.mem_append_left _ hq, hfacts⟩
    · rw [List.mem_singleton.mp hp] at h0
      exact absurd h0 (by norm_num)
  · refine List.pairwise_append.mpr ⟨hinv.pw, List.pairwise_singleton _ _, ?_⟩
    intro a ha b hb
    rw [List.mem_singleton.mp hb]
    intro _ hb0
    exact absurd hb0 (by norm_num)

/-- One step of the rigid loop preserves the invariant (the caregiver
availability must start at a nonnegative minute and the break must be
nonnegative; the processed task must be rigid with positive duration). -/
theorem scheduleStep_inv (pet : Pet) (owner : PetOwner) {br : Int} (hbr : 0 ≤ br)
    (havail : 0 ≤ owner.availability.1) {st : LoopSt} (task : Task)
    (hdur : 1 ≤ task.duration_minutes) (hrig : task.is_flexible = false)
    (hinv : StInv owner.availability br st) :
    StInv owner.availability br (scheduleStep pet owner br st task) := by
  rw [scheduleStep]
  cases hc : checkDependencies task st.scheduled_tasks with
  | false =>
    simp only [hc, Bool.not_false, if_true]
    exact hinv.append_unscheduled task hdur hrig _
  | true =>
    simp only [hc, Bool.not_true, Bool.false_eq_true, if_false]
    by_cases hw : min owner.availability.2 task.time_window.2 <
        max (max st.current_time task.time_window.1) owner.availability.1 +
          task.duration_minutes
    · rw [if_pos (by exact decide_eq_true hw)]
      exact hinv.append_unscheduled task hdur hrig _
    · rw [if_neg (by simpa using hw)]
      cases hfb : findBestTime task
          (max (max st.current_time task.time_window.1) owner.availability.1)
          (min owner.availability.2 task.time_window.2) st.occupied_slots with
      | none => exact hinv.append_unscheduled task hdur hrig _
      | some best =>
        dsimp only
        have hguard : max (max st.current_time task.time_window.1) owner.availability.1 +
            task.duration_minutes ≤ min owner.availability.2 task.time_window.2 := by omega
        obtain ⟨hbe, hbl, htry⟩ := findBestTime_some hguard hfb
        have hdisj := tryScheduleAt_spec htry
        have hbest0 : 0 ≤ best := by
          have : owner.availability.1 ≤
              max (max st.current_time task.time_window.1) owner.availability.1 :=
            le_max_right _ _
          omega
        have hb_avail : owner.availability.1 ≤ best := by
          have : owner.availability.1 ≤
              max (max st.current_time task.time_window.1) owner.availability.1 :=
            le_max_right _ _
          omega
        have hb_tw : task.time_window.1 ≤ best := by
          have h1 : task.time_window.1 ≤ max st.current_time task.time_window.1 :=
            le_max_right _ _
          have h2 : max st.current_time task.time_window.1 ≤
              max (max st.current_time task.time_window.1) owner.availability.1 :=
            le_max_left _ _
          omega
        have hb_cur : st.current_time ≤ best := by
          have h1 : st.current_time ≤ max st.current_time task.time_window.1 :=
            le_max_left _ _
          have h2 : max st.current_time task.time_window.1 ≤
              max (max st.current_time task.time_window.1) owner.availability.1 :=
            le_max_left _ _
          omega
        have hb_a2 : best + task.duration_minutes ≤ owner.availability.2 := by
          have : min owner.availability.2 task.time_window.2 ≤ owner.availability.2 :=
            min_le_left _ _
          omega
        have hb_tw2 : best + task.duration_minutes ≤ task.time_window.2 := by
          have : min owner.availability.2 task.time_window.2 ≤ task.time_window.2 :=
            min_le_right _ _
          omega
        constructor
        · intro p hp
          rcases List.mem_append.mp hp with hp | hp
          · exact hinv.item_dur p hp
          · rw [List.mem_singleton.mp hp]
            exact ⟨rfl, hdur, hrig⟩
        · intro t ht
          rcases List.mem_append.mp ht with ht | ht
          · obtain ⟨q, hq, hq1, hq2, hq3⟩ := hinv.sched_sub t ht
            exact ⟨q, List.mem_append_left _ hq, hq1, hq2, by dsimp only; omega⟩
          · rw [List.mem_singleton.mp ht]
            refine ⟨PlanItem.mk task best task.duration_minutes
              (scheduledReason pet task
                (max (max st.current_time task.time_window.1) owner.availability.1) best),
              List.mem_append_right _ (List.mem_singleton_self _), rfl, hbest0,
              by dsimp only; omega⟩
        · intro p hp h0
          rcases List.mem_append.mp hp with hp | hp
          · exact hinv.contain p hp h0
          · rw [List.mem_singleton.mp hp]
            exact ⟨hb_avail, hb_tw, hb_a2, hb_tw2⟩
        · intro p hp h0
          rcases List.mem_append.mp hp with hp | hp
          · obtain ⟨sl, hsl, hfacts⟩ := hinv.slot p hp h0
            exact ⟨sl, List.mem_append_left _ hsl, hfacts⟩
          · rw [List.mem_singleton.mp hp]
            refine ⟨(best, best + task.duration_minutes + br),
              List.mem_append_right _ (List.mem_singleton_self _), le_refl _,
              by dsimp only; omega⟩
        · intro p hp h0 d hpd hd
          rcases List.mem_append.mp hp with hp | hp
          · obtain ⟨q, hq, hfacts⟩ := hinv.dep p hp h0 d hpd hd
            exact ⟨q, List.mem_append_left _ hq, hfacts⟩
          · rw [List.mem_singleton.mp hp] at h0 hpd ⊢
            obtain ⟨t, ht, htitle⟩ := checkDependencies_target hpd hd hc
            obtain ⟨q, hq, hq1, hq2, hq3⟩ := hinv.sched_sub t ht
            refine ⟨q, List.mem_append_left _ hq, hq2, ?_, ?_, ?_⟩
            · exact hq1 ▸ (hinv.item_dur q hq).2.2
            · rw [hq1, htitle]
            · dsimp only; omega
        · refine List.pairwise_append.mpr
            ⟨hinv.pw, List.pairwise_singleton _ _, ?_⟩
          intro a ha b hb
          rw [List.mem_singleton.mp hb]
          intro ha0 _
          obtain ⟨sl, hsl, hsl1, hsl2⟩ := hinv.slot a ha ha0
          rcases hdisj sl hsl with hcase | hcase
          · exact Or.inl (by dsimp only; omega)
          · exact Or.inr (by dsimp only; omega)

/-- The rigid loop preserves the invariant along any task list whose
members are rigid with positive duration. -/
theorem foldl_scheduleStep_inv (pet : Pet) (owner : PetOwner) {br : Int} (hbr : 0 ≤ br)
    (havail : 0 ≤ owner.availability.1) :
    ∀ (tasks : List Task) (st : LoopSt),
      (∀ t ∈ tasks, 1 ≤ t.duration_minutes ∧ t.is_flexible = false) →
      StInv owner.availability br st →
      StInv owner.availability br (tasks.foldl (scheduleStep pet owner br) st) := by
  intro tasks
  induction tasks with
  | nil => intro st _ hinv; exact hinv
  | cons t ts ih =>
    intro st hts hinv
    rw [List.foldl_cons]
    exact ih _ (fun x hx => hts x (List.mem_cons_of_mem t hx))
      (scheduleStep_inv pet owner hbr havail t (hts t (List.mem_cons_self t ts)).1
        (hts t (List.mem_cons_self t ts)).2 hinv)

/-- Every branch of the rigid loop emits exactly one PlanItem carrying
the processed task. -/
theorem scheduleStep_plan_tasks (pet : Pet) (owner : PetOwner) (br : Int) (st : LoopSt)
    (task : Task) :
    (scheduleStep pet owner br st task).plan.map PlanItem.task =
      st.plan.map PlanItem.task ++ [task] := by
  rw [scheduleStep]
  cases hc : checkDependencies task st.scheduled_tasks with
  | false =>
    simp only [hc, Bool.not_false, if_true]
    simp
  | true =>
    simp only [hc, Bool.not_true, Bool.false_eq_true, if_false]
    split_ifs with hw
    · simp [noWindowItem]
    · cases hfb : findBestTime task
          (max (max st.current_time task.time_window.1) owner.availability.1)
          (min owner.availability.2 task.time_window.2) st.occupied_slots with
      | none => simp [noSlotItem]
      | some best => simp

/-- Iterating the rigid loop appends exactly the processed task list to
the plan's task projection. -/
theorem foldl_scheduleStep_plan_tasks (pet : Pet) (owner : PetOwner) (br : Int) :
    ∀ (tasks : List Task) (st : LoopSt),
      ((tasks.foldl (scheduleStep pet owner br) st).plan).map PlanItem.task =
        st.plan.map PlanItem.task ++ tasks := by
  intro tasks
  induction tasks with
  | nil => intro st; simp
  | cons t ts ih =>
    intro st
    rw [List.foldl_cons, ih, scheduleStep_plan_tasks]
    simp

/-! ## Infrastructure: gap identification -/

/-- Invariant of the gap-identification fold of `_fill_gaps`: walking a
time-sorted suffix of scheduled items, the recorded gaps stay nonempty
subintervals of availability, end by the cursor, are mutually ordered,
and are disjoint from every processed and remaining item; the cursor
dominates the ends of all processed items. -/
theorem gapStep_fold {br : Int} (hbr : 0 ≤ br) (avail : Int × Int) :
    ∀ (suf : List PlanItem) (gaps : List (Int × Int)) (cur : Int) (pre : List PlanItem),
      List.Sorted timeRel suf →
      (∀ p ∈ suf, 1 ≤ p.duration_minutes ∧
        p.scheduled_time + p.duration_minutes ≤ avail.2) →
      (∀ p ∈ pre, p.scheduled_time + p.duration_minutes ≤ cur) →
      avail.1 ≤ cur →
      (∀ g ∈ gaps, avail.1 ≤ g.1 ∧ g.1 < g.2 ∧ g.2 ≤ avail.2 ∧ g.2 ≤ cur ∧
        (∀ p ∈ pre, p.scheduled_time + p.duration_minutes ≤ g.1 ∨
          g.2 ≤ p.scheduled_time) ∧
        (∀ p ∈ suf, g.2 ≤ p.scheduled_time)) →
      gaps.Pairwise (fun g g2 => g.2 ≤ g2.1) →
      (∀ p ∈ pre ++ suf,
        p.scheduled_time + p.duration_minutes ≤ (suf.foldl (gapStep br) (gaps, cur)).2) ∧
      avail.1 ≤ (suf.foldl (gapStep br) (gaps, cur)).2 ∧
      (∀ g ∈ (suf.foldl (gapStep br) (gaps, cur)).1,
        avail.1 ≤ g.1 ∧ g.1 < g.2 ∧ g.2 ≤ avail.2 ∧
        g.2 ≤ (suf.foldl (gapStep br) (gaps, cur)).2 ∧
        (∀ p ∈ pre ++ suf, p.scheduled_time + p.duration_minutes ≤ g.1 ∨
          g.2 ≤ p.scheduled_time)) ∧
      (suf.foldl (gapStep br) (gaps, cur)).1.Pairwise (fun g g2 => g.2 ≤ g2.1) := by
  intro suf
  induction suf with
  | nil =>
    intro gaps cur pre hsort hfacts hpre hcur hgaps hpw
    simp only [List.foldl_nil, List.append_nil]
    exact ⟨hpre, hcur, fun g hg => ⟨(hgaps g hg).1, (hgaps g hg).2.1, (hgaps g hg).2.2.1,
      (hgaps g hg).2.2.2.1, (hgaps g hg).2.2.2.2.1⟩, hpw⟩
  | cons item rest ih =>
    intro gaps cur pre hsort hfacts hpre hcur hgaps hpw
    rw [List.foldl_cons]
    obtain ⟨hsorthead, hsortrest⟩ := List.sorted_cons.mp hsort
    have hitem := hfacts item (List.mem_cons_self _ _)
    rw [show pre ++ item :: rest = (pre ++ [item]) ++ rest by simp]
    rw [gapStep]
    dsimp only
    by_cases hcond : (decide (cur < item.scheduled_time) &&
        decide (15 ≤ item.scheduled_time - cur)) = true
    · rw [if_pos hcond]
      have hcond2 := (Bool.and_eq_true _ _).mp hcond
      have hlt : cur < item.scheduled_time := of_decide_eq_true hcond2.1
      have h15 : 15 ≤ item.scheduled_time - cur := of_decide_eq_true hcond2.2
      apply ih (gaps ++ [(cur, item.scheduled_time)])
        (max cur (item.scheduled_time + item.duration_minutes + br)) (pre ++ [item])
        hsortrest (fun p hp => hfacts p (List.mem_cons_of_mem _ hp))
      · intro p hp
        rcases List.mem_append.mp hp with hp | hp
        · have := hpre p hp
          have := le_max_left cur (item.scheduled_time + item.duration_minutes + br)
          omega
        · rw [List.mem_singleton.mp hp]
          have := le_max_right cur (item.scheduled_time + item.duration_minutes + br)
          omega
      · have := le_max_left cur (item.scheduled_time + item.duration_minutes + br)
        omega
      · intro g hg
        rcases List.mem_append.mp hg with hg | hg
        · obtain ⟨a1, a2, a3, a4, a5, a6⟩ := hgaps g hg
          have hmax := le_max_left cur (item.scheduled_time + item.duration_minutes + br)
          refine ⟨a1, a2, a3, by omega, ?_, fun p hp => a6 p (List.mem_cons_of_mem _ hp)⟩
          intro p hp
          rcases List.mem_append.mp hp with hp | hp
          · exact a5 p hp
          · rw [List.mem_singleton.mp hp]
            exact Or.inr (a6 item (List.mem_cons_self _ _))
        · rw [List.mem_singleton.mp hg]
          have hmax := le_max_right cur (item.scheduled_time + item.duration_minutes + br)
          refine ⟨hcur, by omega, by omega, by omega, ?_, ?_⟩
          · intro p hp
            rcases List.mem_append.mp hp with hp | hp
            · exact Or.inl (hpre p hp)
            · rw [List.mem_singleton.mp hp]
              exact Or.inr (le_refl _)
          · intro p hp
            exact hsorthead p hp
      · refine List.pairwise_append.mpr ⟨hpw, List.pairwise_singleton _ _, ?_⟩
        intro g hg g2 hg2
        rw [List.mem_singleton.mp hg2]
        exact (hgaps g hg).2.2.2.1
    · rw [if_neg hcond]
      apply ih gaps (max cur (item.scheduled_time + item.duration_minutes + br))
        (pre ++ [item]) hsortrest (fun p hp => hfacts p (List.mem_cons_of_mem _ hp))
      · intro p hp
        rcases List.mem_append.mp hp with hp | hp
        · have := hpre p hp
          have := le_max_left cur (item.scheduled_time + item.duration_minutes + br)
          omega
        · rw [List.mem_singleton.mp hp]
          have := le_max_right cur (item.scheduled_time + item.duration_minutes + br)
          omega
      · have := le_max_left cur (item.scheduled_time + item.duration_minutes + br)
        omega
      · intro g hg
        obtain ⟨a1, a2, a3, a4, a5, a6⟩ := hgaps g hg
        have hmax := le_max_left cur (item.scheduled_time + item.duration_minutes + br)
        refine ⟨a1, a2, a3, by omega, ?_, fun p hp => a6 p (List.mem_cons_of_mem _ hp)⟩
        intro p hp
        rcases List.mem_append.mp hp with hp | hp
        · exact a5 p hp
        · rw [List.mem_singleton.mp hp]
          exact Or.inr (a6 item (List.mem_cons_self _ _))
      · exact hpw

/-- The gaps computed by `_fill_gaps` are nonempty ordered subintervals
of the availability window, disjoint from every scheduled item. -/
theorem computeGaps_ok {br : Int} (hbr : 0 ≤ br) (avail : Int × Int) (S : List PlanItem)
    (hsort : List.Sorted timeRel S)
    (hfacts : ∀ p ∈ S, 1 ≤ p.duration_minutes ∧
      p.scheduled_time + p.duration_minutes ≤ avail.2) :
    (∀ g ∈ computeGaps br S avail, avail.1 ≤ g.1 ∧ g.1 < g.2 ∧ g.2 ≤ avail.2 ∧
      (∀ p ∈ S, p.scheduled_time + p.duration_minutes ≤ g.1 ∨ g.2 ≤ p.scheduled_time)) ∧
    (computeGaps br S avail).Pairwise (fun g g2 => g.2 ≤ g2.1) := by
  obtain ⟨hends, hcur, hgood, hpw⟩ :=
    gapStep_fold hbr avail S [] avail.1 [] hsort hfacts (by simp) (le_refl _) (by simp)
      List.Pairwise.nil
  rw [computeGaps]
  simp only [List.nil_append] at hends hgood
  by_cases hfin : (decide ((S.foldl (gapStep br) ([], avail.1)).2 < avail.2) &&
      decide (15 ≤ avail.2 - (S.foldl (gapStep br) ([], avail.1)).2)) = true
  · rw [if_pos hfin]
    have hfin2 := (Bool.and_eq_true _ _).mp hfin
    have hlt : (S.foldl (gapStep br) ([], avail.1)).2 < avail.2 := of_decide_eq_true hfin2.1
    constructor
    · intro g hg
      rcases List.mem_append.mp hg with hg | hg
      · obtain ⟨a1, a2, a3, a4, a5⟩ := hgood g hg
        exact ⟨a1, a2, a3, a5⟩
      · rw [List.mem_singleton.mp hg]
        exact ⟨hcur, hlt, le_refl _, fun p hp => Or.inl (hends p hp)⟩
    · refine List.pairwise_append.mpr ⟨hpw, List.pairwise_singleton _ _, ?_⟩
      intro g hg g2 hg2
      rw [List.mem_singleton.mp hg2]
      exact (hgood g hg).2.2.2.1
  · rw [if_neg hfin]
    exact ⟨fun g hg => ⟨(hgood g hg).1, (hgood g hg).2.1, (hgood g hg).2.2.1,
      (hgood g hg).2.2.2.2⟩, hpw⟩

/-! ## Infrastructure: gap assignment -/

/-- The components of a successful gap-fit test. -/
theorem fitsGap_spec {g : Int × Int} {t : Task} (h : fitsGap g t = true) :
    t.duration_minutes ≤ g.2 - g.1 ∧ t.time_window.1 ≤ g.1 ∧
      g.1 + t.duration_minutes ≤ t.time_window.2 := by
  rw [fitsGap] at h
  simp only [Bool.and_eq_true, decide_eq_true_eq] at h
  exact ⟨h.1.1, h.1.2, h.2⟩

/-- `extractFirst` returns a satisfying element and the input list is a
permutation of that element consed onto the remainder. -/
theorem extractFirst_spec {p : Task → Bool} :
    ∀ {flex task rest}, extractFirst p flex = Option.some (task, rest) →
      p task = true ∧ flex.Perm (task :: rest) := by
  intro flex
  induction flex with
  | nil => intro task rest h; simp [extractFirst] at h
  | cons a as ih =>
    intro task rest h
    rw [extractFirst] at h
    by_cases ha : p a = true
    · rw [if_pos ha] at h
      simp only [Option.some.injEq, Prod.mk.injEq] at h
      obtain ⟨rfl, rfl⟩ := h
      exact ⟨ha, List.Perm.refl _⟩
    · rw [if_neg ha] at h
      cases hr : extractFirst p as with
      | none => rw [hr] at h; simp at h
      | some tr =>
        obtain ⟨t0, r0⟩ := tr
        rw [hr] at h
        simp at h
        obtain ⟨rfl, rfl⟩ := h
        obtain ⟨hp0, hperm⟩ := ih hr
        exact ⟨hp0, (hperm.cons a).trans (List.Perm.swap _ a _)⟩

/-- When no flexible tasks remain, gap assignment places nothing. -/
theorem assignGaps_nil_flex : ∀ gaps : List (Int × Int), assignGaps gaps [] = ([], []) := by
  intro gaps
  induction gaps with
  | nil => rfl
  | cons g gs ih =>
    rw [assignGaps, show extractFirst (fitsGap g) [] = Option.none from rfl]
    exact ih

/-- The tasks placed by gap assignment form a sub-permutation of the
flexible-task list (each flexible task appears at most once). -/
theorem assignGaps_tasks_subperm : ∀ (gaps : List (Int × Int)) (flex : List Task),
    ((assignGaps gaps flex).1.map PlanItem.task).Subperm flex := by
  intro gaps
  induction gaps with
  | nil => intro flex; simp [assignGaps]
  | cons g gs ih =>
    intro flex
    rw [assignGaps]
    cases he : extractFirst (fitsGap g) flex with
    | none => exact ih flex
    | some tr =>
      obtain ⟨task, rest⟩ := tr
      obtain ⟨hfit, hperm⟩ := extractFirst_spec he
      dsimp only
      rw [List.map_cons]
      have h2 : (task :: (assignGaps gs rest).1.map PlanItem.task).Subperm (task :: rest) :=
        (List.subperm_cons task).mpr (ih rest)
      exact h2.trans hperm.symm.subperm

/-- Facts about each item placed by gap assignment: its task is drawn
from the flexible list, the recorded duration is the task's, and it sits
at the start of one of the offered gaps, fitting it. -/
theorem assignGaps_items : ∀ (gaps : List (Int × Int)) (flex : List Task),
    ∀ a ∈ (assignGaps gaps flex).1,
      a.task ∈ flex ∧ a.duration_minutes = a.task.duration_minutes ∧
      ∃ g ∈ gaps, a.scheduled_time = g.1 ∧ fitsGap g a.task = true := by
  intro gaps
  induction gaps with
  | nil => intro flex a ha; simp [assignGaps] at ha
  | cons g gs ih =>
    intro flex a ha
    rw [assignGaps] at ha
    cases he : extractFirst (fitsGap g) flex with
    | none =>
      rw [he] at ha
      obtain ⟨h1, h2, g2, hg2, h3⟩ := ih flex a ha
      exact ⟨h1, h2, g2, List.mem_cons_of_mem _ hg2, h3⟩
    | some tr =>
      obtain ⟨task, rest⟩ := tr
      rw [he] at ha
      dsimp only at ha
      obtain ⟨hfit, hperm⟩ := extractFirst_spec he
      rcases List.mem_cons.mp ha with rfl | ha
      · exact ⟨hperm.symm.subset (List.mem_cons_self _ _), rfl, g,
          List.mem_cons_self _ _, rfl, hfit⟩
      · obtain ⟨h1, h2, g2, hg2, h3⟩ := ih rest a ha
        have hmem : a.task ∈ flex := hperm.symm.subset (List.mem_cons_of_mem _ h1)
        exact ⟨hmem, h2, g2, List.mem_cons_of_mem _ hg2, h3⟩

/-- Items placed by gap assignment into ordered, mutually separated
gaps have pairwise disjoint intervals. -/
theorem assignGaps_pairwise : ∀ (gaps : List (Int × Int)) (flex : List Task),
    gaps.Pairwise (fun g g2 => g.2 ≤ g2.1) →
    (assignGaps gaps flex).1.Pairwise ivDisj := by
  intro gaps
  induction gaps with
  | nil => intro flex _; simp [assignGaps]
  | cons g gs ih =>
    intro flex hpw
    obtain ⟨hhead, htail⟩ := List.pairwise_cons.mp hpw
    rw [assignGaps]
    cases he : extractFirst (fitsGap g) flex with
    | none => exact ih flex htail
    | some tr =>
      obtain ⟨task, rest⟩ := tr
      obtain ⟨hfit, hperm⟩ := extractFirst_spec he
      obtain ⟨hfit1, hfit2, hfit3⟩ := fitsGap_spec hfit
      dsimp only
      refine List.Pairwise.cons ?_ (ih rest htail)
      intro b hb
      obtain ⟨hb1, hb2, g2, hg2, hb3, hb4⟩ := assignGaps_items gs rest b hb
      have hsep : g.2 ≤ g2.1 := hhead g2 hg2
      exact Or.inl (by dsimp only; omega)

/-- `_fill_gaps` always extends the plan by exactly the gap-assigned
items (the early return for an empty flexible list included). -/
theorem fillGaps_eq (br : Int) (plan : List PlanItem) (flex : List Task)
    (avail : Int × Int) :
    fillGaps br plan flex avail =
      plan ++ (assignGaps (computeGaps br
        (List.insertionSort timeRel
          (plan.filter (fun p => decide (0 ≤ p.scheduled_time)))) avail) flex).1 := by
  rw [fillGaps]
  by_cases hf : flex = []
  · rw [if_pos hf, hf, assignGaps_nil_flex, List.append_nil]
  · rw [if_neg hf]

/-! ## Infrastructure: decomposing `generate_plan` -/

/-- The final state of the rigid placement loop of `generate_plan`. -/
def rigidSt (s : Scheduler) (pet : Pet) (owner : PetOwner) : LoopSt :=
  (List.insertionSort (rankRel owner.availability.1)
      (s.tasks.filter (fun t => !t.is_flexible))).foldl
    (scheduleStep pet owner s.break_time_minutes)
    (LoopSt.mk [] [] [] owner.availability.1)

/-- The merged plan (rigid placements plus gap-filled flexible items)
before the final scheduled/unscheduled partition. -/
def fullPlan (s : Scheduler) (pet : Pet) (owner : PetOwner) : List PlanItem :=
  fillGaps s.break_time_minutes (rigidSt s pet owner).plan
    (s.tasks.filter (fun t => t.is_flexible)) owner.availability

/-- With both contexts set, `generate_plan` runs the main body. -/
theorem generatePlan_some {s : Scheduler} {pet : Pet} {owner : PetOwner}
    (hp : s.pet = Option.some pet) (ho : s.owner = Option.some owner) :
    generatePlan s = generatePlanAux s pet owner := by
  obtain ⟨tasks, p0, o0, br⟩ := s
  simp only at hp ho
  rw [hp, ho]
  rfl

/-- With pet, owner and a nonempty task list, `generate_plan` is the
time-sorted scheduled part of the merged plan followed by its
unscheduled part. -/
theorem generatePlan_eq {s : Scheduler} {pet : Pet} {owner : PetOwner}
    (hp : s.pet = Option.some pet) (ho : s.owner = Option.some owner)
    (ht : ¬s.tasks = []) :
    generatePlan s =
      List.insertionSort timeRel
        ((fullPlan s pet owner).filter (fun p => decide (0 ≤ p.scheduled_time))) ++
      (fullPlan s pet owner).filter (fun p => decide (p.scheduled_time < 0)) := by
  rw [generatePlan_some hp ho, generatePlanAux, if_neg ht]
  rfl

/-- `generate_plan` is a permutation of the merged plan. -/
theorem generatePlan_perm {s : Scheduler} {pet : Pet} {owner : PetOwner}
    (hp : s.pet = Option.some pet) (ho : s.owner = Option.some owner)
    (ht : ¬s.tasks = []) :
    (generatePlan s).Perm (fullPlan s pet owner) := by
  rw [generatePlan_eq hp ho ht]
  have h1 : (List.insertionSort timeRel ((fullPlan s pet owner).filter
      (fun p => decide (0 ≤ p.scheduled_time)))).Perm
      ((fullPlan s pet owner).filter (fun p => decide (0 ≤ p.scheduled_time))) :=
    List.perm_insertionSort _ _
  have h2 := List.filter_append_perm (fun p => decide (0 ≤ p.scheduled_time))
    (fullPlan s pet owner)
  have h3 : (fullPlan s pet owner).filter (fun p => decide (p.scheduled_time < 0)) =
      (fullPlan s pet owner).filter (fun p => !(decide (0 ≤ p.scheduled_time))) := by
    apply List.filter_congr
    intro p _
    by_cases h : 0 ≤ p.scheduled_time
    · simp [h, show ¬(p.scheduled_time < 0) by omega]
    · simp [h, show p.scheduled_time < 0 by omega]
  rw [h3]
  exact (h1.append_right _).trans h2

/-- The loop invariant holds at the initial state of the rigid loop. -/
theorem StInv_init (avail : Int × Int) (br : Int) :
    StInv avail br (LoopSt.mk [] [] [] avail.1) := by
  constructor <;> simp

/-- Every task fed to the rigid loop is rigid with positive duration. -/
theorem rigid_input_facts {s : Scheduler} (owner : PetOwner)
    (hval : ∀ t ∈ s.tasks, t.validate = true) :
    ∀ t ∈ List.insertionSort (rankRel owner.availability.1)
        (s.tasks.filter (fun t => !t.is_flexible)),
      1 ≤ t.duration_minutes ∧ t.is_flexible = false := by
  intro t htm
  have hmem0 := (List.mem_insertionSort _).mp htm
  have hmem := List.mem_of_mem_filter hmem0
  have hflex := List.of_mem_filter hmem0
  exact ⟨validate_dur (hval t hmem), by simpa using hflex⟩

/-- The loop invariant at the final state of the rigid loop. -/
theorem rigidSt_inv {s : Scheduler} (pet : Pet) (owner : PetOwner)
    (hbr : 0 ≤ s.break_time_minutes) (havail : 0 ≤ owner.availability.1)
    (hval : ∀ t ∈ s.tasks, t.validate = true) :
    StInv owner.availability s.break_time_minutes (rigidSt s pet owner) := by
  rw [rigidSt]
  exact foldl_scheduleStep_inv pet owner hbr havail _ _ (rigid_input_facts owner hval)
    (StInv_init _ _)

/-- The rigid plan's task projection is exactly the ranked rigid list. -/
theorem rigidSt_plan_tasks (s : Scheduler) (pet : Pet) (owner : PetOwner) :
    (rigidSt s pet owner).plan.map PlanItem.task =
      List.insertionSort (rankRel owner.availability.1)
        (s.tasks.filter (fun t => !t.is_flexible)) := by
  rw [rigidSt, foldl_scheduleStep_plan_tasks]
  simp

/-- The gaps offered to the gap filler are nonempty ordered
subintervals of availability, disjoint from every scheduled rigid
item. -/
theorem rigid_gaps_ok (s : Scheduler) (pet : Pet) (owner : PetOwner)
    (hbr : 0 ≤ s.break_time_minutes) (havail : 0 ≤ owner.availability.1)
    (hval : ∀ t ∈ s.tasks, t.validate = true) :
    (∀ g ∈ computeGaps s.break_time_minutes
        (List.insertionSort timeRel ((rigidSt s pet owner).plan.filter
          (fun p => decide (0 ≤ p.scheduled_time)))) owner.availability,
      owner.availability.1 ≤ g.1 ∧ g.1 < g.2 ∧ g.2 ≤ owner.availability.2 ∧
      (∀ p ∈ (rigidSt s pet owner).plan, 0 ≤ p.scheduled_time →
        p.scheduled_time + p.duration_minutes ≤ g.1 ∨ g.2 ≤ p.scheduled_time)) ∧
    (computeGaps s.break_time_minutes
        (List.insertionSort timeRel ((rigidSt s pet owner).plan.filter
          (fun p => decide (0 ≤ p.scheduled_time)))) owner.availability).Pairwise
      (fun g g2 => g.2 ≤ g2.1) := by
  have hinv := rigidSt_inv pet owner hbr havail hval
  have hSmem : ∀ p ∈ List.insertionSort timeRel ((rigidSt s pet owner).plan.filter
      (fun p => decide (0 ≤ p.scheduled_time))),
      p ∈ (rigidSt s pet owner).plan ∧ 0 ≤ p.scheduled_time := by
    intro p hpm
    have h2 := (List.mem_insertionSort _).mp hpm
    exact ⟨List.mem_of_mem_filter h2, by simpa using List.of_mem_filter h2⟩
  have hSsort : List.Sorted timeRel (List.insertionSort timeRel
      ((rigidSt s pet owner).plan.filter (fun p => decide (0 ≤ p.scheduled_time)))) :=
    List.sorted_insertionSort _ _
  have hSfacts : ∀ p ∈ List.insertionSort timeRel ((rigidSt s pet owner).plan.filter
      (fun p => decide (0 ≤ p.scheduled_time))),
      1 ≤ p.duration_minutes ∧
      p.scheduled_time + p.duration_minutes ≤ owner.availability.2 := by
    intro p hpm
    obtain ⟨hmem, h0⟩ := hSmem p hpm
    exact ⟨(hinv.item_dur p hmem).2.1, (hinv.contain p hmem h0).2.2.1⟩
  obtain ⟨hgaps, hpw⟩ := computeGaps_ok hbr owner.availability _ hSsort hSfacts
  refine ⟨?_, hpw⟩
  intro g hg
  obtain ⟨hg1, hg2, hg3, hgdisj⟩ := hgaps g hg
  refine ⟨hg1, hg2, hg3, ?_⟩
  intro p hpm h0
  apply hgdisj
  apply (List.mem_insertionSort _).mpr
  exact List.mem_filter.mpr ⟨hpm, by simpa using h0⟩

/-! ## C1 (amended): one item per rigid task, placed flexibles only -/

/-- C1 (amended): with pet, owner and a nonempty valid task list, the
returned plan carries exactly one item per rigid task (as a multiset),
while its flexible-task items form a sub-permutation of the flexible
tasks — each flexible task appears at most once, and those that fit no
gap are absent. -/
theorem C1_one_item_per_rigid_task (s : Scheduler) (pet : Pet) (owner : PetOwner)
    (hp : s.pet = Option.some pet) (ho : s.owner = Option.some owner)
    (ht : ¬s.tasks = []) (hval : ∀ t ∈ s.tasks, t.validate = true) :
    (((generatePlan s).map PlanItem.task).filter (fun t => !t.is_flexible)).Perm
      (s.tasks.filter (fun t => !t.is_flexible)) ∧
    (((generatePlan s).map PlanItem.task).filter (fun t => t.is_flexible)).Subperm
      (s.tasks.filter (fun t => t.is_flexible)) := by
  have hperm := (generatePlan_perm hp ho ht).map PlanItem.task
  have hfull : (fullPlan s pet owner).map PlanItem.task =
      (rigidSt s pet owner).plan.map PlanItem.task ++
      (assignGaps (computeGaps s.break_time_minutes
          (List.insertionSort timeRel ((rigidSt s pet owner).plan.filter
            (fun p => decide (0 ≤ p.scheduled_time)))) owner.availability)
        (s.tasks.filter (fun t => t.is_flexible))).1.map PlanItem.task := by
    rw [fullPlan, fillGaps_eq, List.map_append]
  have hrigid_all : ∀ t ∈ (rigidSt s pet owner).plan.map PlanItem.task,
      (!t.is_flexible) = true := by
    rw [rigidSt_plan_tasks]
    intro t htm
    have := List.of_mem_filter ((List.mem_insertionSort _).mp htm)
    simpa using this
  have hadds_all : ∀ gaps : List (Int × Int),
      ∀ t ∈ (assignGaps gaps (s.tasks.filter (fun x => x.is_flexible))).1.map PlanItem.task,
      t.is_flexible = true := by
    intro gaps t htm
    obtain ⟨a, ha, rfl⟩ := List.mem_map.mp htm
    obtain ⟨htaskmem, _, _⟩ := assignGaps_items _ _ a ha
    simpa using List.of_mem_filter htaskmem
  constructor
  · have h1 := hperm.filter (fun t => !t.is_flexible)
    rw [hfull, List.filter_append] at h1
    have hnil : (List.map PlanItem.task (assignGaps (computeGaps s.break_time_minutes
        (List.insertionSort timeRel ((rigidSt s pet owner).plan.filter
          (fun p => decide (0 ≤ p.scheduled_time)))) owner.availability)
        (s.tasks.filter (fun t => t.is_flexible))).1).filter (fun t => !t.is_flexible) = [] :=
      List.filter_eq_nil_iff.mpr
        (fun t htm => by have := hadds_all _ t htm; simp_all)
    rw [List.filter_eq_self.mpr hrigid_all, hnil, List.append_nil] at h1
    refine h1.trans ?_
    rw [rigidSt_plan_tasks]
    exact List.perm_insertionSort _ _
  · have h1 := hperm.filter (fun t => t.is_flexible)
    rw [hfull, List.filter_append] at h1
    have hnil : (List.map PlanItem.task (rigidSt s pet owner).plan).filter
        (fun t => t.is_flexible) = [] :=
      List.filter_eq_nil_iff.mpr
        (fun t htm => by have := hrigid_all t htm; simp_all)
    rw [hnil, List.filter_eq_self.mpr (hadds_all _), List.nil_append] at h1
    exact (h1.subperm_right).mpr (assignGaps_tasks_subperm _ _)

/-- Witness for C1 (amended) at the one-flexible-task scheduler. -/
theorem C1_one_item_per_rigid_task_witness :
    (c1Sched.pet = Option.some dogPet ∧
      c1Sched.owner = Option.some (PetOwner.mk "Sam" (0, 10) []) ∧
      ¬c1Sched.tasks = [] ∧ (∀ t ∈ c1Sched.tasks, t.validate = true)) ∧
    ((((generatePlan c1Sched).map PlanItem.task).filter (fun t => !t.is_flexible)).Perm
      (c1Sched.tasks.filter (fun t => !t.is_flexible)) ∧
    (((generatePlan c1Sched).map PlanItem.task).filter (fun t => t.is_flexible)).Subperm
      (c1Sched.tasks.filter (fun t => t.is_flexible))) :=
  ⟨⟨rfl, rfl, by decide, by decide⟩,
    C1_one_item_per_rigid_task c1Sched dogPet (PetOwner.mk "Sam" (0, 10) []) rfl rfl
      (by decide) (by decide)⟩

/-! ## C2 (amended): rigid dependents never precede their dependency -/

/-- C2 (amended): for valid tasks, nonnegative break and an availability
window starting at a nonnegative minute, every scheduled **rigid** item
whose task depends (by a nonempty title) on `d` is accompanied in the
plan by a scheduled rigid item titled `d` at a no-later time.  (Per the
counterexample, gap-filled flexible items are exempt: the gap filler
never consults the dependency gate.) -/
theorem C2_rigid_dependent_not_earlier (s : Scheduler) (pet : Pet) (owner : PetOwner)
    (hp : s.pet = Option.some pet) (ho : s.owner = Option.some owner)
    (hbr : 0 ≤ s.break_time_minutes) (havail : 0 ≤ owner.availability.1)
    (hval : ∀ t ∈ s.tasks, t.validate = true) :
    ∀ p ∈ generatePlan s, p.task.is_flexible = false → 0 ≤ p.scheduled_time →
      ∀ d, p.task.depends_on = Option.some d → d ≠ "" →
      ∃ q ∈ generatePlan s, 0 ≤ q.scheduled_time ∧ q.task.is_flexible = false ∧
        q.task.title = d ∧ q.scheduled_time ≤ p.scheduled_time := by
  by_cases ht : s.tasks = []
  · intro p hp0
    rw [generatePlan_empty s (Or.inr (Or.inr ht))] at hp0
    simp at hp0
  intro p hpmem hrig h0 d hdep hd
  have hperm := generatePlan_perm hp ho ht
  have hmem2 : p ∈ fullPlan s pet owner := hperm.mem_iff.mp hpmem
  rw [fullPlan, fillGaps_eq] at hmem2
  rcases List.mem_append.mp hmem2 with hmem3 | hmem3
  · have hinv := rigidSt_inv pet owner hbr havail hval
    obtain ⟨q, hq, hq0, hqrig, hqtitle, hqle⟩ := hinv.dep p hmem3 h0 d hdep hd
    have hqdur : 1 ≤ q.duration_minutes := (hinv.item_dur q hq).2.1
    have hqmemfull : q ∈ fullPlan s pet owner := by
      rw [fullPlan, fillGaps_eq]
      exact List.mem_append_left _ hq
    exact ⟨q, hperm.mem_iff.mpr hqmemfull, hq0, hqrig, hqtitle, by omega⟩
  · obtain ⟨htaskmem, _, _⟩ := assignGaps_items _ _ p hmem3
    have := List.of_mem_filter htaskmem
    rw [hrig] at this
    simp at this

/-- Witness for C2 (amended) at a concrete two-task scheduler. -/
theorem C2_rigid_dependent_not_earlier_witness :
    (c2Sched.pet = Option.some dogPet ∧
      c2Sched.owner = Option.some (PetOwner.mk "Sam" (0, 1440) []) ∧
      0 ≤ c2Sched.break_time_minutes ∧
      0 ≤ (PetOwner.mk "Sam" (0, 1440) ([] : List (String × String))).availability.1 ∧
      (∀ t ∈ c2Sched.tasks, t.validate = true)) ∧
    (∀ p ∈ generatePlan c2Sched, p.task.is_flexible = false → 0 ≤ p.scheduled_time →
      ∀ d, p.task.depends_on = Option.some d → d ≠ "" →
      ∃ q ∈ generatePlan c2Sched, 0 ≤ q.scheduled_time ∧ q.task.is_flexible = false ∧
        q.task.title = d ∧ q.scheduled_time ≤ p.scheduled_time) :=
  ⟨⟨rfl, rfl, by decide, by decide, by decide⟩,
    C2_rigid_dependent_not_earlier c2Sched dogPet (PetOwner.mk "Sam" (0, 1440) []) rfl rfl
      (by decide) (by decide) (by decide)⟩

/-! ## C3: scheduled items are pairwise non-overlapping -/

/-- C3: for valid tasks, nonnegative break and availability starting at
a nonnegative minute, no two scheduled items of the returned plan have
intersecting `[scheduledTime, scheduledTime+duration)` intervals —
across rigid placements and gap-filled flexible placements alike. -/
theorem C3_scheduled_no_overlap (s : Scheduler) (pet : Pet) (owner : PetOwner)
    (hp : s.pet = Option.some pet) (ho : s.owner = Option.some owner)
    (hbr : 0 ≤ s.break_time_minutes) (havail : 0 ≤ owner.availability.1)
    (hval : ∀ t ∈ s.tasks, t.validate = true) :
    (generatePlan s).Pairwise
      (fun a b => 0 ≤ a.scheduled_time → 0 ≤ b.scheduled_time → ivDisj a b) := by
  by_cases ht : s.tasks = []
  · rw [generatePlan_empty s (Or.inr (Or.inr ht))]
    exact List.Pairwise.nil
  have hinv := rigidSt_inv pet owner hbr havail hval
  obtain ⟨hgaps, hgapspw⟩ := rigid_gaps_ok s pet owner hbr havail hval
  have hpwfull : (fullPlan s pet owner).Pairwise
      (fun a b => 0 ≤ a.scheduled_time → 0 ≤ b.scheduled_time → ivDisj a b) := by
    rw [fullPlan, fillGaps_eq]
    refine List.pairwise_append.mpr ⟨hinv.pw, ?_, ?_⟩
    · exact (assignGaps_pairwise _ _ hgapspw).imp (fun h _ _ => h)
    · intro a ha b hb ha0 hb0
      obtain ⟨hbtask, hbdur, g, hg, hbtime, hbfit⟩ := assignGaps_items _ _ b hb
      obtain ⟨hg1, hg2, hg3, hgdisj⟩ := hgaps g hg
      obtain ⟨hfit1, hfit2, hfit3⟩ := fitsGap_spec hbfit
      rcases hgdisj a ha ha0 with hcase | hcase
      · exact Or.inl (by omega)
      · exact Or.inr (by omega)
  exact ((generatePlan_perm hp ho ht).pairwise_iff
    (fun h hb0 ha0 => (h ha0 hb0).symm)).mpr hpwfull

/-- Witness for C3 at a concrete two-task scheduler. -/
theorem C3_scheduled_no_overlap_witness :
    (c2Sched.pet = Option.some dogPet ∧
      c2Sched.owner = Option.some (PetOwner.mk "Sam" (0, 1440) []) ∧
      0 ≤ c2Sched.break_time_minutes ∧
      0 ≤ (PetOwner.mk "Sam" (0, 1440) ([] : List (String × String))).availability.1 ∧
      (∀ t ∈ c2Sched.tasks, t.validate = true)) ∧
    (generatePlan c2Sched).Pairwise
      (fun a b => 0 ≤ a.scheduled_time → 0 ≤ b.scheduled_time → ivDisj a b) :=
  ⟨⟨rfl, rfl, by decide, by decide, by decide⟩,
    C3_scheduled_no_overlap c2Sched dogPet (PetOwner.mk "Sam" (0, 1440) []) rfl rfl
      (by decide) (by decide) (by decide)⟩

/-! ## C4: scheduled intervals lie in the window and availability -/

/-- C4: for valid tasks, nonnegative break and availability starting at
a nonnegative minute, every scheduled item's interval lies inside the
caregiver availability and inside its task's own time window — for
rigid placements and gap-filled flexible placements alike. -/
theorem C4_scheduled_containment (s : Scheduler) (pet : Pet) (owner : PetOwner)
    (hp : s.pet = Option.some pet) (ho : s.owner = Option.some owner)
    (hbr : 0 ≤ s.break_time_minutes) (havail : 0 ≤ owner.availability.1)
    (hval : ∀ t ∈ s.tasks, t.validate = true) :
    ∀ p ∈ generatePlan s, 0 ≤ p.scheduled_time →
      owner.availability.1 ≤ p.scheduled_time ∧
      p.scheduled_time + p.duration_minutes ≤ owner.availability.2 ∧
      p.task.time_window.1 ≤ p.scheduled_time ∧
      p.scheduled_time + p.duration_minutes ≤ p.task.time_window.2 := by
  by_cases ht : s.tasks = []
  · intro p hp0
    rw [generatePlan_empty s (Or.inr (Or.inr ht))] at hp0
    simp at hp0
  intro p hpmem h0
  have hperm := generatePlan_perm hp ho ht
  have hinv := rigidSt_inv pet owner hbr havail hval
  have hmem2 : p ∈ fullPlan s pet owner := hperm.mem_iff.mp hpmem
  rw [fullPlan, fillGaps_eq] at hmem2
  rcases List.mem_append.mp hmem2 with hmem3 | hmem3
  · obtain ⟨c1, c2, c3, c4⟩ := hinv.contain p hmem3 h0
    exact ⟨c1, c3, c2, c4⟩
  · obtain ⟨hgaps, _⟩ := rigid_gaps_ok s pet owner hbr havail hval
    obtain ⟨hbtask, hbdur, g, hg, hbtime, hbfit⟩ := assignGaps_items _ _ p hmem3
    obtain ⟨hg1, hg2, hg3, _⟩ := hgaps g hg
    obtain ⟨hfit1, hfit2, hfit3⟩ := fitsGap_spec hbfit
    exact ⟨by omega, by omega, by omega, by omega⟩

/-- Witness for C4 at a concrete two-task scheduler. -/
theorem C4_scheduled_containment_witness :
    (c1Sched.pet = Option.some dogPet ∧
      c1Sched.owner = Option.some (PetOwner.mk "Sam" (0, 10) []) ∧
      0 ≤ c1Sched.break_time_minutes ∧
      0 ≤ (PetOwner.mk "Sam" (0, 10) ([] : List (String × String))).availability.1 ∧
      (∀ t ∈ c1Sched.tasks, t.validate = true)) ∧
    (∀ p ∈ generatePlan c1Sched, 0 ≤ p.scheduled_time →
      (PetOwner.mk "Sam" (0, 10) ([] : List (String × String))).availability.1 ≤
        p.scheduled_time ∧
      p.scheduled_time + p.duration_minutes ≤
        (PetOwner.mk "Sam" (0, 10) ([] : List (String × String))).availability.2 ∧
      p.task.time_window.1 ≤ p.scheduled_time ∧
      p.scheduled_time + p.duration_minutes ≤ p.task.time_window.2) :=
  ⟨⟨rfl, rfl, by decide, by decide, by decide⟩,
    C4_scheduled_containment c1Sched dogPet (PetOwner.mk "Sam" (0, 10) []) rfl rfl
      (by decide) (by decide) (by decide)⟩

/-! ## C7: order independence of conflict detection -/

/-- The specification's pair list: for each task, every later task with
intersecting interval — all conflicting pairs, each exactly once, with
no early-exit optimization. -/
def pairsList : List Task → List (Task × Task)
  | [] => []
  | a :: l =>
    (l.filter (fun b => (tasksOverlap a b).isSome)).map (fun b => (a, b)) ++ pairsList l

/-- Overlap is symmetric. -/
theorem tasksOverlap_comm (a b : Task) :
    (tasksOverlap a b).isSome = (tasksOverlap b a).isSome := by
  rw [tasksOverlap, tasksOverlap]
  cases ha : a.start_time <;> cases hb : b.start_time
  case none.none => rfl
  case none.some s2 => rfl
  case some.none s1 => rfl
  case some.some s1 s2 =>
    dsimp only
    rw [show min (s1 + a.duration_minutes) (s2 + b.duration_minutes) - max s1 s2 =
        min (s2 + b.duration_minutes) (s1 + a.duration_minutes) - max s2 s1 by
      rw [min_comm, max_comm]]

/-- A conflicting partner starts before the current task's end (the
soundness of the scan's early exit). -/
theorem conflict_start_lt {a b : Task} (h : (tasksOverlap a b).isSome = true) :
    startKey b < startKey a + a.duration_minutes := by
  rw [tasksOverlap] at h
  cases ha : a.start_time <;> cases hb : b.start_time <;> rw [ha, hb] at h <;> simp at h
  next s1 s2 =>
    rw [startKey, startKey, ha, hb]
    simp only [Option.getD_some]
    omega

/-- On a start-sorted list the early exit drops only non-conflicting
tasks: the truncated scan filters exactly the conflicting partners. -/
theorem takeWhile_filter_conflict (a : Task) :
    ∀ l : List Task, List.Sorted startRel l →
      (l.takeWhile (fun b => decide (startKey b < startKey a + a.duration_minutes))).filter
          (fun b => (tasksOverlap a b).isSome) =
        l.filter (fun b => (tasksOverlap a b).isSome) := by
  intro l
  induction l with
  | nil => intro _; rfl
  | cons b l ih =>
    intro hsort
    obtain ⟨hhead, htail⟩ := List.sorted_cons.mp hsort
    by_cases hq : startKey b < startKey a + a.duration_minutes
    · rw [List.takeWhile_cons_of_pos (by simpa using hq), List.filter_cons,
        List.filter_cons, ih htail]
    · rw [List.takeWhile_cons_of_neg (by simpa using hq)]
      have hnil : (b :: l).filter (fun x => (tasksOverlap a x).isSome) = [] := by
        apply List.filter_eq_nil_iff.mpr
        intro c hc
        rcases List.mem_cons.mp hc with rfl | hc
        · intro hcon
          exact hq (conflict_start_lt (by simpa using hcon))
        · intro hcon
          have h1 : startKey b ≤ startKey c := hhead c hc
          have h2 := conflict_start_lt (by simpa using hcon : (tasksOverlap a c).isSome = true)
          omega
      rw [hnil]
      rfl

/-- On a start-sorted list the optimized scan produces exactly the
specification's pair list. -/
theorem conflictScan_sorted :
    ∀ l : List Task, List.Sorted startRel l → conflictScan l = pairsList l := by
  intro l
  induction l with
  | nil => intro _; rfl
  | cons a l ih =>
    intro hsort
    obtain ⟨hhead, htail⟩ := List.sorted_cons.mp hsort
    rw [conflictScan, pairsList, ih htail, takeWhile_filter_conflict a l htail]

/-- Shuffling the first two of three appended lists is a permutation. -/
theorem perm_shuffle {α : Type} (A B C : List α) :
    (A ++ (B ++ C)).Perm (B ++ (A ++ C)) := by
  rw [← List.append_assoc, ← List.append_assoc]
  exact List.perm_append_comm.append_right C

/-- The unordered conflict pairs of the specification's pair list are
invariant (as a multiset) under permutation of the task list. -/
theorem pairsSym_perm : ∀ {l1 l2 : List Task}, l1.Perm l2 →
    ((pairsList l1).map Sym2.mk).Perm ((pairsList l2).map Sym2.mk) := by
  intro l1 l2 h
  induction h with
  | nil => exact List.Perm.refl _
  | cons a h ih =>
    rw [pairsList, pairsList, List.map_append, List.map_append]
    exact (((h.filter _).map _).map _).append ih
  | swap x y l =>
    simp only [pairsList, List.filter_cons, List.map_append, List.map_cons]
    by_cases hxy : (tasksOverlap y x).isSome = true
    · have hyx : (tasksOverlap x y).isSome = true := by
        rw [tasksOverlap_comm]; exact hxy
      simp only [hxy, hyx, if_true, List.map_cons, List.cons_append]
      rw [show Sym2.mk (y, x) = Sym2.mk (x, y) from Sym2.eq_swap]
      exact (perm_shuffle _ _ _).cons _
    · have hyx : ¬(tasksOverlap x y).isSome = true := by
        rw [tasksOverlap_comm]; exact hxy
      simp only [hxy, hyx, if_false]
      exact perm_shuffle _ _ _
  | trans h1 h2 ih1 ih2 => exact ih1.trans ih2

/-- C7: conflict detection is order-independent: permuting the task
collection leaves the multiset of unordered conflicting pairs unchanged,
and that multiset is exactly the conflicting pairs of tasks carrying a
start time — each such pair reported exactly once. -/
theorem C7_conflicts_order_independent (sa sb : Scheduler)
    (h : sa.tasks.Perm sb.tasks) :
    (((detectConflictPairs sa).map Sym2.mk : List (Sym2 Task)) : Multiset (Sym2 Task)) =
      (((detectConflictPairs sb).map Sym2.mk : List (Sym2 Task)) : Multiset (Sym2 Task)) ∧
    (((detectConflictPairs sa).map Sym2.mk : List (Sym2 Task)) : Multiset (Sym2 Task)) =
      (((pairsList (sa.tasks.filter hasStart)).map Sym2.mk : List (Sym2 Task)) :
        Multiset (Sym2 Task)) := by
  have key : ∀ sc : Scheduler,
      ((detectConflictPairs sc).map Sym2.mk).Perm
        ((pairsList (sc.tasks.filter hasStart)).map Sym2.mk) := by
    intro sc
    rw [detectConflictPairs, conflictScan_sorted _ (List.sorted_insertionSort _ _)]
    exact pairsSym_perm (List.perm_insertionSort _ _)
  constructor
  · exact Multiset.coe_eq_coe.mpr
      ((key sa).trans ((pairsSym_perm (h.filter hasStart)).trans (key sb).symm))
  · exact Multiset.coe_eq_coe.mpr (key sa)

/-- A task fixed at minute 510 for 20 minutes. -/
def fixedM : Task :=
  mkTask "M" "x" 20 "low" (0, 1440) "" (TimeValue.int 510) Option.none false false Option.none

/-- A task fixed at minute 520 for 20 minutes. -/
def fixedN : Task :=
  mkTask "N" "x" 20 "low" (0, 1440) "" (TimeValue.int 520) Option.none false false Option.none

/-- Witness for C7 at two schedulers holding the same two overlapping
fixed-time tasks in opposite orders. -/
theorem C7_conflicts_order_independent_witness :
    (Scheduler.mk [fixedM, fixedN] Option.none Option.none 5).tasks.Perm
      (Scheduler.mk [fixedN, fixedM] Option.none Option.none 5).tasks ∧
    ((((detectConflictPairs (Scheduler.mk [fixedM, fixedN] Option.none Option.none 5)).map
        Sym2.mk : List (Sym2 Task)) : Multiset (Sym2 Task)) =
      (((detectConflictPairs (Scheduler.mk [fixedN, fixedM] Option.none Option.none 5)).map
        Sym2.mk : List (Sym2 Task)) : Multiset (Sym2 Task)) ∧
    (((detectConflictPairs (Scheduler.mk [fixedM, fixedN] Option.none Option.none 5)).map
        Sym2.mk : List (Sym2 Task)) : Multiset (Sym2 Task)) =
      (((pairsList ((Scheduler.mk [fixedM, fixedN] Option.none Option.none
        5).tasks.filter hasStart)).map Sym2.mk : List (Sym2 Task)) :
          Multiset (Sym2 Task))) :=
  ⟨List.Perm.swap fixedN fixedM [],
    C7_conflicts_order_independent (Scheduler.mk [fixedM, fixedN] Option.none Option.none 5)
      (Scheduler.mk [fixedN, fixedM] Option.none Option.none 5)
      (List.Perm.swap fixedN fixedM [])⟩

/-! ## C9: the `completed` flag never influences planning -/

/-- Erase the `completed` flag of a task. -/
def scrub (t : Task) : Task := { t with completed := false }

/-- Erase the `completed` flag inside a plan item (scheduled time,
duration and reason are untouched). -/
def scrubItem (p : PlanItem) : PlanItem := { p with task := scrub p.task }

/-- Erase the `completed` flags inside a loop state. -/
def scrubSt (st : LoopSt) : LoopSt :=
  LoopSt.mk (st.plan.map scrubItem) (st.scheduled_tasks.map scrub)
    st.occupied_slots st.current_time

theorem scrub_fields (t : Task) :
    (scrub t).title = t.title ∧ (scrub t).duration_minutes = t.duration_minutes ∧
    (scrub t).priority = t.priority ∧ (scrub t).time_window = t.time_window ∧
    (scrub t).depends_on = t.depends_on ∧ (scrub t).is_flexible = t.is_flexible ∧
    (scrub t).task_type = t.task_type := ⟨rfl, rfl, rfl, rfl, rfl, rfl, rfl⟩

theorem getDynamicPriority_scrub (t : Task) (ct : Int) :
    getDynamicPriority (scrub t) ct = getDynamicPriority t ct := rfl

theorem checkDependencies_scrub (t : Task) (l : List Task) :
    checkDependencies (scrub t) (l.map scrub) = checkDependencies t l := by
  rw [checkDependencies, checkDependencies,
    show (scrub t).depends_on = t.depends_on from rfl]
  cases t.depends_on with
  | none => rfl
  | some dep =>
    dsimp only
    by_cases hd : dep = ""
    · rw [if_pos hd, if_pos hd]
    · rw [if_neg hd, if_neg hd, List.any_map]
      rfl

theorem tryScheduleAt_scrub (t : Task) (st : Int) (occ : List (Int × Int)) :
    tryScheduleAt (scrub t) st occ = tryScheduleAt t st occ := rfl

theorem findBestTime_scrub (t : Task) (e l : Int) (occ : List (Int × Int)) :
    findBestTime (scrub t) e l occ = findBestTime t e l occ := rfl

theorem rankRel_scrub (ct : Int) (a b : Task) :
    rankRel ct (scrub a) (scrub b) ↔ rankRel ct a b := Iff.rfl

/-- `orderedInsert` commutes with a relation-preserving map. -/
theorem orderedInsert_map {α β : Type} (f : α → β) (r : α → α → Prop)
    (r2 : β → β → Prop) [DecidableRel r] [DecidableRel r2]
    (hrel : ∀ a b, r2 (f a) (f b) ↔ r a b) :
    ∀ (a : α) (l : List α),
      List.orderedInsert r2 (f a) (l.map f) = (List.orderedInsert r a l).map f := by
  intro a l
  induction l with
  | nil => rfl
  | cons b l ih =>
    rw [List.map_cons, List.orderedInsert, List.orderedInsert]
    by_cases h : r a b
    · rw [if_pos ((hrel a b).mpr h), if_pos h, List.map_cons, List.map_cons]
    · rw [if_neg (fun hh => h ((hrel a b).mp hh)), if_neg h, List.map_cons, ih]

/-- `insertionSort` commutes with a relation-preserving map. -/
theorem insertionSort_map {α β : Type} (f : α → β) (r : α → α → Prop)
    (r2 : β → β → Prop) [DecidableRel r] [DecidableRel r2]
    (hrel : ∀ a b, r2 (f a) (f b) ↔ r a b) :
    ∀ l : List α, List.insertionSort r2 (l.map f) = (List.insertionSort r l).map f := by
  intro l
  induction l with
  | nil => rfl
  | cons a l ih =>
    rw [List.map_cons, List.insertionSort, List.insertionSort, ih,
      orderedInsert_map f r r2 hrel]

theorem timeRel_scrubItem (a b : PlanItem) :
    timeRel (scrubItem a) (scrubItem b) ↔ timeRel a b := Iff.rfl

/-- One rigid-loop step commutes with erasing `completed` flags. -/
theorem scheduleStep_scrub (pet : Pet) (owner : PetOwner) (br : Int) (st : LoopSt)
    (task : Task) :
    scheduleStep pet owner br (scrubSt st) (scrub task) =
      scrubSt (scheduleStep pet owner br st task) := by
  rw [scheduleStep, scheduleStep]
  rw [show (scrubSt st).scheduled_tasks = st.scheduled_tasks.map scrub from rfl,
    checkDependencies_scrub]
  cases hc : checkDependencies task st.scheduled_tasks with
  | false =>
    simp only [Bool.not_false, if_true]
    rw [scrubSt, scrubSt]
    simp only [List.map_append, List.map_cons, List.map_nil]
    rfl
  | true =>
    simp only [Bool.not_true, Bool.false_eq_true, if_false]
    rw [show (scrubSt st).current_time = st.current_time from rfl,
      show (scrub task).time_window = task.time_window from rfl,
      show (scrub task).duration_minutes = task.duration_minutes from rfl]
    by_cases hw : min owner.availability.2 task.time_window.2 <
        max (max st.current_time task.time_window.1) owner.availability.1 +
          task.duration_minutes
    · rw [if_pos (decide_eq_true hw), if_pos (decide_eq_true hw)]
      rw [scrubSt, scrubSt]
      simp only [List.map_append, List.map_cons, List.map_nil]
      rfl
    · rw [if_neg (by simpa using hw), if_neg (by simpa using hw)]
      rw [show (scrubSt st).occupied_slots = st.occupied_slots from rfl, findBestTime_scrub]
      cases hfb : findBestTime task
          (max (max st.current_time task.time_window.1) owner.availability.1)
          (min owner.availability.2 task.time_window.2) st.occupied_slots with
      | none =>
        rw [scrubSt, scrubSt]
        simp only [List.map_append, List.map_cons, List.map_nil]
        rfl
      | some best =>
        rw [scrubSt, scrubSt]
        simp only [List.map_append, List.map_cons, List.map_nil]
        rfl

/-- The whole rigid loop commutes with erasing `completed` flags. -/
theorem foldl_scheduleStep_scrub (pet : Pet) (owner : PetOwner) (br : Int) :
    ∀ (tasks : List Task) (st : LoopSt),
      (tasks.map scrub).foldl (scheduleStep pet owner br) (scrubSt st) =
        scrubSt (tasks.foldl (scheduleStep pet owner br) st) := by
  intro tasks
  induction tasks with
  | nil => intro st; rfl
  | cons t ts ih =>
    intro st
    rw [List.map_cons, List.foldl_cons, List.foldl_cons, scheduleStep_scrub, ih]

theorem gapStep_scrubItem (br : Int) (acc : List (Int × Int) × Int) (p : PlanItem) :
    gapStep br acc (scrubItem p) = gapStep br acc p := rfl

theorem foldl_gapStep_scrub (br : Int) :
    ∀ (items : List PlanItem) (acc : List (Int × Int) × Int),
      (items.map scrubItem).foldl (gapStep br) acc = items.foldl (gapStep br) acc := by
  intro items
  induction items with
  | nil => intro acc; rfl
  | cons p ps ih =>
    intro acc
    rw [List.map_cons, List.foldl_cons, List.foldl_cons, gapStep_scrubItem, ih]

theorem computeGaps_scrub (br : Int) (items : List PlanItem) (avail : Int × Int) :
    computeGaps br (items.map scrubItem) avail = computeGaps br items avail := by
  rw [computeGaps, computeGaps, foldl_gapStep_scrub]

theorem fitsGap_scrub (g : Int × Int) (t : Task) : fitsGap g (scrub t) = fitsGap g t := rfl

theorem extractFirst_scrub (g : Int × Int) :
    ∀ flex : List Task,
      extractFirst (fitsGap g) (flex.map scrub) =
        Option.map (fun r => (scrub r.1, r.2.map scrub)) (extractFirst (fitsGap g) flex) := by
  intro flex
  induction flex with
  | nil => rfl
  | cons t ts ih =>
    rw [List.map_cons, extractFirst, extractFirst, fitsGap_scrub]
    by_cases h : fitsGap g t = true
    · rw [if_pos h, if_pos h]
      rfl
    · rw [if_neg h, if_neg h, ih]
      cases extractFirst (fitsGap g) ts <;> rfl

theorem assignGaps_scrub :
    ∀ (gaps : List (Int × Int)) (flex : List Task),
      assignGaps gaps (flex.map scrub) =
        ((assignGaps gaps flex).1.map scrubItem, (assignGaps gaps flex).2.map scrub) := by
  intro gaps
  induction gaps with
  | nil => intro flex; rfl
  | cons g gs ih =>
    intro flex
    rw [assignGaps, assignGaps, extractFirst_scrub]
    cases he : extractFirst (fitsGap g) flex with
    | none => exact ih flex
    | some tr =>
      obtain ⟨task, rest⟩ := tr
      simp only [Option.map]
      rw [ih rest]
      rfl

theorem fillGaps_scrub (br : Int) (plan : List PlanItem) (flex : List Task)
    (avail : Int × Int) :
    fillGaps br (plan.map scrubItem) (flex.map scrub) avail =
      (fillGaps br plan flex avail).map scrubItem := by
  rw [fillGaps_eq, fillGaps_eq, List.map_append]
  congr 1
  rw [List.filter_map]
  rw [show ((fun p => decide (0 ≤ p.scheduled_time)) ∘ scrubItem) =
    (fun p => decide (0 ≤ p.scheduled_time)) from rfl]
  rw [insertionSort_map scrubItem timeRel timeRel timeRel_scrubItem, computeGaps_scrub,
    assignGaps_scrub]

/-- `generate_plan` factors through erasing `completed` flags. -/
theorem generatePlan_scrub (s : Scheduler) :
    generatePlan (Scheduler.mk (s.tasks.map scrub) s.pet s.owner s.break_time_minutes) =
      (generatePlan s).map scrubItem := by
  cases hpet : s.pet with
  | none =>
    rw [generatePlan_empty _ (Or.inl hpet), generatePlan_empty _ (Or.inl rfl)]
    rfl
  | some pet =>
    cases howner : s.owner with
    | none =>
      rw [generatePlan_empty _ (Or.inr (Or.inl howner)),
        generatePlan_empty _ (Or.inr (Or.inl rfl))]
      rfl
    | some owner =>
      rw [generatePlan_some (s := Scheduler.mk (s.tasks.map scrub) (Option.some pet)
          (Option.some owner) s.break_time_minutes) rfl rfl,
        generatePlan_some hpet howner]
      rw [generatePlanAux, generatePlanAux]
      by_cases ht : s.tasks = []
      · rw [if_pos (show (Scheduler.mk (s.tasks.map scrub) (Option.some pet)
            (Option.some owner) s.break_time_minutes).tasks = [] by simp [ht]), if_pos ht]
        rfl
      · rw [if_neg (show ¬(Scheduler.mk (s.tasks.map scrub) (Option.some pet)
            (Option.some owner) s.break_time_minutes).tasks = [] by simp [ht]), if_neg ht]
        rw [show (Scheduler.mk (s.tasks.map scrub) (Option.some pet) (Option.some owner)
          s.break_time_minutes).tasks = s.tasks.map scrub from rfl]
        rw [show (Scheduler.mk (s.tasks.map scrub) (Option.some pet) (Option.some owner)
          s.break_time_minutes).break_time_minutes = s.break_time_minutes from rfl]
        dsimp only
        rw [List.filter_map, List.filter_map]
        rw [show ((fun t => !t.is_flexible) ∘ scrub) = (fun t => !t.is_flexible) from rfl]
        rw [show ((fun t => t.is_flexible) ∘ scrub) = (fun t => t.is_flexible) from rfl]
        rw [insertionSort_map scrub (rankRel owner.availability.1)
          (rankRel owner.availability.1) (rankRel_scrub owner.availability.1)]
        rw [show (LoopSt.mk [] [] [] owner.availability.1) =
          scrubSt (LoopSt.mk [] [] [] owner.availability.1) from rfl]
        rw [foldl_scheduleStep_scrub]
        rw [show ∀ st : LoopSt, (scrubSt st).plan = st.plan.map scrubItem from fun _ => rfl]
        rw [fillGaps_scrub]
        rw [List.filter_map, List.filter_map]
        rw [show ((fun p => decide (0 ≤ p.scheduled_time)) ∘ scrubItem) =
          (fun p => decide (0 ≤ p.scheduled_time)) from rfl]
        rw [show ((fun p => decide (p.scheduled_time < 0)) ∘ scrubItem) =
          (fun p => decide (p.scheduled_time < 0)) from rfl]
        rw [insertionSort_map scrubItem timeRel timeRel timeRel_scrubItem, List.map_append]
        rfl

/-- C9: `generate_plan` never reads the `completed` flag: two schedulers
identical except for the `completed` flags of their tasks produce plans
that agree item by item on scheduled time, duration, reason, order, and
on every task field other than `completed` (the plans are equal after
erasing that flag). -/
theorem C9_completed_flag_irrelevant (sa sb : Scheduler)
    (htasks : sa.tasks.map scrub = sb.tasks.map scrub) (hpet : sa.pet = sb.pet)
    (howner : sa.owner = sb.owner)
    (hbr : sa.break_time_minutes = sb.break_time_minutes) :
    (generatePlan sa).map scrubItem = (generatePlan sb).map scrubItem := by
  rw [← generatePlan_scrub sa, ← generatePlan_scrub sb, htasks, hpet, howner, hbr]

/-- Witness for C9: two one-task schedulers differing only in the
task's `completed` flag. -/
theorem C9_completed_flag_irrelevant_witness :
    (Scheduler.mk [mkTask "A" "care" 30 "high" (480, 600) "" TimeValue.none Option.none
        false false Option.none] (Option.some dogPet)
        (Option.some (PetOwner.mk "Sam" (480, 1320) [])) 5).tasks.map scrub =
      (Scheduler.mk [mkTask "A" "care" 30 "high" (480, 600) "" TimeValue.none Option.none
        false true Option.none] (Option.some dogPet)
        (Option.some (PetOwner.mk "Sam" (480, 1320) [])) 5).tasks.map scrub ∧
    (generatePlan (Scheduler.mk [mkTask "A" "care" 30 "high" (480, 600) "" TimeValue.none
        Option.none false false Option.none] (Option.some dogPet)
        (Option.some (PetOwner.mk "Sam" (480, 1320) [])) 5)).map scrubItem =
      (generatePlan (Scheduler.mk [mkTask "A" "care" 30 "high" (480, 600) "" TimeValue.none
        Option.none false true Option.none] (Option.some dogPet)
        (Option.some (PetOwner.mk "Sam" (480, 1320) [])) 5)).map scrubItem :=
  ⟨rfl, C9_completed_flag_irrelevant _ _ rfl rfl rfl rfl⟩

end Pawpal
